import Mathlib

/-!
# TRWMutex: an upgradable, try-capable reader/writer lock

A verification development for `trwmutex.go`.

The Go struct `TRWMutex` has four fields: the guard `mu` (a `sync.Mutex`), the
core `rwmu` (a `sync.RWMutex`) and the two counters `w` and `r`.  Every method
is a short straight-line sequence of statements with at most one branch.  The
embedding is a small-step one: a *location* is the source line of the next
statement a thread will execute, and `exec` gives the effect of that single
statement on the shared struct.  On top of `exec` there are two semantics:

* `run` / `call`: one thread executes a whole method with nobody else
  running (the sequential reading of a call);
* `step` / `execs`: any number of threads interleave statement by statement,
  each following the usage protocol (release only what it holds).  A thread of
  the model holds at most one lock at a time: the lock is not reentrant.

The two locks of Go's `sync` package are not part of the repository; they are
modelled by their abstract state (`Mutex`, `RWMutex`).  The abstract state does
not record which threads are parked on a lock.  That limits what the model is
used for:

* a release of a lock that is not held is a run-time error in the model.  Go
  raises that error when no thread is parked on the lock, and lets some
  unmatched releases through when one is.  The model is therefore used under
  correct usage only, where no release is unmatched and the error never arises
  (`reach_no_fatal`), and for a single call run alone, where no thread is
  parked;
* a shared acquisition is granted whenever the core has no exclusive holder,
  while Go parks a new reader behind a waiting writer.  The model has every
  execution of the program and more; it is used for what holds in every
  execution and for explicit executions in which no reader arrives while a
  writer waits.  Where a shared acquisition is shown to complete, no writer
  holds or waits, which is also Go's condition.

The counters are Go `int`s.  `exec` computes them on the integers, which is the
arithmetic of the program as long as no counter leaves the range of an `int`.
In the interleaving semantics each counter stays between 0 and the number of
threads (`reach_inRange`), and with fewer than `2^63` threads the executions
are those of the program with its 64-bit arithmetic (`reach64_iff`).
Statements that range over every value of the counters and depend on their
arithmetic are made on `exec64`, the same statements with the wrap-around of a
64-bit `int`.
-/

namespace Trwmutex

/-! ## The two standard-library locks -/

/-- Result of one operation on a standard-library lock. -/
inductive Acq (α : Type) where
  /-- The operation completed and left the lock in the given state. -/
  | ok (a : α)
  /-- The operation cannot complete now; the caller has to wait. -/
  | wait
  /-- The operation is a run-time error (release of a lock that is not held). -/
  | fatal
deriving DecidableEq, Repr

/-- Modelled from the spec: the guard is Go's `sync.Mutex`, whose code is not
part of this repository.  It is "a plain exclusive lock": locked or not. -/
structure Mutex where
  locked : Bool
deriving DecidableEq, Repr

/-- Modelled from the spec: `acquire` of the guard.  It waits while the guard
is held. -/
def Mutex.Lock (mu : Mutex) : Acq Mutex :=
  if mu.locked then .wait else .ok ⟨true⟩

/-- Modelled from the spec: `release` of the guard.  Go documents that it is a
run-time error if the mutex is not locked on entry to `Unlock`. -/
def Mutex.Unlock (mu : Mutex) : Acq Mutex :=
  if mu.locked then .ok ⟨false⟩ else .fatal

/-- Modelled from the spec: the core is Go's `sync.RWMutex`, whose code is not
part of this repository.  It is "a shared/exclusive lock": `writer` tells
whether it is held in exclusive mode, `readers` is the multiplicity of its
shared holds. -/
structure RWMutex where
  writer : Bool
  readers : Nat
deriving DecidableEq, Repr

/-- Modelled from the spec: `acquireExclusive`.  It waits while the core has
any holder. -/
def RWMutex.Lock (rw : RWMutex) : Acq RWMutex :=
  if rw.writer = false ∧ rw.readers = 0 then .ok ⟨true, 0⟩ else .wait

/-- Modelled from the spec: `releaseExclusive`.  Go documents that it is a
run-time error if the lock is not held for writing on entry to `Unlock`; Go
detects it when no writer is parked on the lock, which is all this development
relies on (an idle lock, one call run alone). -/
def RWMutex.Unlock (rw : RWMutex) : Acq RWMutex :=
  if rw.writer then .ok ⟨false, rw.readers⟩ else .fatal

/-- Modelled from the spec: `acquireShared`.  It waits while the core is held
in exclusive mode.  Go's `RWMutex` also makes a new reader wait while a writer
is waiting: the model allows every schedule Go allows, and more, so it is not
used to show that some thread can always take a step. -/
def RWMutex.RLock (rw : RWMutex) : Acq RWMutex :=
  if rw.writer then .wait else .ok ⟨false, rw.readers + 1⟩

/-- Modelled from the spec: `releaseShared`.  Go documents that it is a
run-time error if the lock is not held for reading on entry to `RUnlock`; Go
detects it when no reader is parked on the lock, which is all this development
relies on (an idle lock, one call run alone). -/
def RWMutex.RUnlock (rw : RWMutex) : Acq RWMutex :=
  if 0 < rw.readers then .ok ⟨rw.writer, rw.readers - 1⟩ else .fatal

/-! ## The struct -/

/-- The struct `TRWMutex` of `trwmutex.go`, lines 6-11. -/
structure TRWMutex where
  mu : Mutex
  rwmu : RWMutex
  w : Int
  r : Int
deriving DecidableEq, Repr

/-- The zero value of the struct: an idle lock. -/
def TRWMutex.zero : TRWMutex := ⟨⟨false⟩, ⟨false, 0⟩, 0, 0⟩

/-! ## Statements -/

/-- The statements of `trwmutex.go`, named by their source line.  A thread at
location `lN` is about to execute the statement on line `N`. -/
inductive Loc where
  -- Lock
  | l15 | l16 | l17 | l19 | l20 | l23 | l24
  -- TryLock
  | l30 | l31 | l33 | l34 | l36 | l38 | l39 | l40
  -- Unlock
  | l45 | l46 | l47 | l48
  -- RLock
  | l53 | l54 | l55 | l57 | l58 | l61 | l62
  -- TryRLock
  | l68 | l69 | l71 | l72 | l74 | l76 | l77 | l78
  -- RUnlock
  | l83 | l84 | l85 | l86
  -- Upgrade
  | l93 | l94 | l95 | l98 | l99 | l100 | l101 | l104 | l105 | l107 | l108
  -- TryUpgrade
  | l116 | l117 | l119 | l120 | l122 | l123 | l124 | l126 | l127 | l128
deriving DecidableEq, Repr

/-- What a thread holds while it is outside every method of the lock. -/
inductive Hold where
  /-- Nothing. -/
  | none
  /-- A read lock (after `RLock`, `TryRLock` = true, or a failed `TryUpgrade`). -/
  | read
  /-- The write lock (after `Lock`, `TryLock` = true, `Upgrade`,
  `TryUpgrade` = true). -/
  | write
deriving DecidableEq, Repr

/-- Result of executing one statement. -/
inductive Res where
  /-- The statement completed; the method continues at the given line. -/
  | goto (m : TRWMutex) (l : Loc)
  /-- The statement completed and the method returned `v` (`none` for a method
  without result); `h` is what the caller holds from then on. -/
  | ret (m : TRWMutex) (v : Option Bool) (h : Hold)
  /-- The statement is a lock acquisition that has to wait. -/
  | wait
  /-- The statement is a run-time error of the underlying lock. -/
  | fatal
deriving DecidableEq, Repr

/-- Continue with `f` once the lock operation has completed. -/
def Acq.andThen {α : Type} (a : Acq α) (f : α → Res) : Res :=
  match a with
  | .ok x => f x
  | .wait => .wait
  | .fatal => .fatal

/-- The effect of the statement at each source line.  The counters are computed
on the integers; `exec64` is the same with the wrap-around of Go's `int`. -/
def exec : Loc → TRWMutex → Res
  -- func (m *TRWMutex) Lock()
  | .l15, m => m.mu.Lock.andThen fun mu => .goto { m with mu := mu } .l16
  | .l16, m => .goto { m with w := m.w + 1 } .l17
  | .l17, m => .goto m (if m.r > 0 ∨ m.w > 1 then .l19 else .l23)
  | .l19, m => m.mu.Unlock.andThen fun mu => .goto { m with mu := mu } .l20
  | .l20, m => m.rwmu.Lock.andThen fun rw => .ret { m with rwmu := rw } none .write
  | .l23, m => m.rwmu.Lock.andThen fun rw => .goto { m with rwmu := rw } .l24
  | .l24, m => m.mu.Unlock.andThen fun mu => .ret { m with mu := mu } none .write
  -- func (m *TRWMutex) TryLock() bool
  | .l30, m => m.mu.Lock.andThen fun mu => .goto { m with mu := mu } .l31
  | .l31, m => .goto m (if m.r > 0 ∨ m.w > 0 then .l33 else .l36)
  | .l33, m => m.mu.Unlock.andThen fun mu => .goto { m with mu := mu } .l34
  | .l34, m => .ret m (some false) .none
  | .l36, m => .goto { m with w := m.w + 1 } .l38
  | .l38, m => m.rwmu.Lock.andThen fun rw => .goto { m with rwmu := rw } .l39
  | .l39, m => m.mu.Unlock.andThen fun mu => .goto { m with mu := mu } .l40
  | .l40, m => .ret m (some true) .write
  -- func (m *TRWMutex) Unlock()
  | .l45, m => m.mu.Lock.andThen fun mu => .goto { m with mu := mu } .l46
  | .l46, m => .goto { m with w := m.w - 1 } .l47
  | .l47, m => m.rwmu.Unlock.andThen fun rw => .goto { m with rwmu := rw } .l48
  | .l48, m => m.mu.Unlock.andThen fun mu => .ret { m with mu := mu } none .none
  -- func (m *TRWMutex) RLock()
  | .l53, m => m.mu.Lock.andThen fun mu => .goto { m with mu := mu } .l54
  | .l54, m => .goto { m with r := m.r + 1 } .l55
  | .l55, m => .goto m (if m.w > 0 then .l57 else .l61)
  | .l57, m => m.mu.Unlock.andThen fun mu => .goto { m with mu := mu } .l58
  | .l58, m => m.rwmu.RLock.andThen fun rw => .ret { m with rwmu := rw } none .read
  | .l61, m => m.rwmu.RLock.andThen fun rw => .goto { m with rwmu := rw } .l62
  | .l62, m => m.mu.Unlock.andThen fun mu => .ret { m with mu := mu } none .read
  -- func (m *TRWMutex) TryRLock() bool
  | .l68, m => m.mu.Lock.andThen fun mu => .goto { m with mu := mu } .l69
  | .l69, m => .goto m (if m.w > 0 then .l71 else .l74)
  | .l71, m => m.mu.Unlock.andThen fun mu => .goto { m with mu := mu } .l72
  | .l72, m => .ret m (some false) .none
  | .l74, m => .goto { m with r := m.r + 1 } .l76
  | .l76, m => m.rwmu.RLock.andThen fun rw => .goto { m with rwmu := rw } .l77
  | .l77, m => m.mu.Unlock.andThen fun mu => .goto { m with mu := mu } .l78
  | .l78, m => .ret m (some true) .read
  -- func (m *TRWMutex) RUnlock()
  | .l83, m => m.mu.Lock.andThen fun mu => .goto { m with mu := mu } .l84
  | .l84, m => .goto { m with r := m.r - 1 } .l85
  | .l85, m => m.rwmu.RUnlock.andThen fun rw => .goto { m with rwmu := rw } .l86
  | .l86, m => m.mu.Unlock.andThen fun mu => .ret { m with mu := mu } none .none
  -- func (m *TRWMutex) Upgrade()
  | .l93, m => m.mu.Lock.andThen fun mu => .goto { m with mu := mu } .l94
  | .l94, m => .goto { m with w := m.w + 1 } .l95
  | .l95, m => .goto m (if m.r > 1 ∨ m.w > 1 then .l98 else .l104)
  | .l98, m => m.rwmu.RUnlock.andThen fun rw => .goto { m with rwmu := rw } .l99
  | .l99, m => .goto { m with r := m.r - 1 } .l100
  | .l100, m => m.mu.Unlock.andThen fun mu => .goto { m with mu := mu } .l101
  | .l101, m => m.rwmu.Lock.andThen fun rw => .ret { m with rwmu := rw } none .write
  | .l104, m => m.rwmu.RUnlock.andThen fun rw => .goto { m with rwmu := rw } .l105
  | .l105, m => .goto { m with r := m.r - 1 } .l107
  | .l107, m => m.rwmu.Lock.andThen fun rw => .goto { m with rwmu := rw } .l108
  | .l108, m => m.mu.Unlock.andThen fun mu => .ret { m with mu := mu } none .write
  -- func (m *TRWMutex) TryUpgrade() bool
  | .l116, m => m.mu.Lock.andThen fun mu => .goto { m with mu := mu } .l117
  | .l117, m => .goto m (if m.r > 1 ∨ m.w > 1 then .l119 else .l122)
  | .l119, m => m.mu.Unlock.andThen fun mu => .goto { m with mu := mu } .l120
  | .l120, m => .ret m (some false) .read
  | .l122, m => .goto { m with w := m.w + 1 } .l123
  | .l123, m => m.rwmu.RUnlock.andThen fun rw => .goto { m with rwmu := rw } .l124
  | .l124, m => .goto { m with r := m.r - 1 } .l126
  | .l126, m => m.rwmu.Lock.andThen fun rw => .goto { m with rwmu := rw } .l127
  | .l127, m => m.mu.Unlock.andThen fun mu => .goto { m with mu := mu } .l128
  | .l128, m => .ret m (some true) .write

/-! ## One call, run alone -/

/-- The eight methods. -/
inductive Op where
  | Lock | TryLock | Unlock | RLock | TryRLock | RUnlock | Upgrade | TryUpgrade
deriving DecidableEq, Repr

/-- First statement of each method. -/
def Op.entry : Op → Loc
  | .Lock => .l15
  | .TryLock => .l30
  | .Unlock => .l45
  | .RLock => .l53
  | .TryRLock => .l68
  | .RUnlock => .l83
  | .Upgrade => .l93
  | .TryUpgrade => .l116

/-- How a call ends when the calling thread runs alone. -/
inductive Outcome where
  /-- The method returned `v`, leaving the struct `m`; the caller holds `h`. -/
  | ret (m : TRWMutex) (v : Option Bool) (h : Hold)
  /-- The caller is suspended at line `l`, in state `m`. -/
  | wait (m : TRWMutex) (l : Loc)
  /-- The statement on line `l` raised a run-time error in state `m`. -/
  | fatal (m : TRWMutex) (l : Loc)
  /-- The step budget was exhausted (never the case for a budget of 8). -/
  | fuel
deriving DecidableEq, Repr

/-- Execute statements from line `l` until the method returns, has to wait, or
fails; `n` bounds the number of statements. -/
def run : Nat → Loc → TRWMutex → Outcome
  | 0, _, _ => .fuel
  | n + 1, l, m =>
    match exec l m with
    | .goto m1 l1 => run n l1 m1
    | .ret m1 v h => .ret m1 v h
    | .wait => .wait m l
    | .fatal => .fatal m l

/-- The lines whose statements completed during `run`, in order. -/
def trace : Nat → Loc → TRWMutex → List Loc
  | 0, _, _ => []
  | n + 1, l, m =>
    match exec l m with
    | .goto m1 l1 => l :: trace n l1 m1
    | .ret _ _ _ => [l]
    | .wait => []
    | .fatal => []

/-- No method executes more than eight statements. -/
def callFuel : Nat := 8

/-- A whole call of method `o` on the struct `m`, run alone. -/
def call (o : Op) (m : TRWMutex) : Outcome := run callFuel o.entry m

/-- The lines executed by `call o m`. -/
def callTrace (o : Op) (m : TRWMutex) : List Loc := trace callFuel o.entry m

/-- `Lock()` run alone. -/
def TRWMutex.Lock (m : TRWMutex) : Outcome := call .Lock m
/-- `TryLock()` run alone. -/
def TRWMutex.TryLock (m : TRWMutex) : Outcome := call .TryLock m
/-- `Unlock()` run alone. -/
def TRWMutex.Unlock (m : TRWMutex) : Outcome := call .Unlock m
/-- `RLock()` run alone. -/
def TRWMutex.RLock (m : TRWMutex) : Outcome := call .RLock m
/-- `TryRLock()` run alone. -/
def TRWMutex.TryRLock (m : TRWMutex) : Outcome := call .TryRLock m
/-- `RUnlock()` run alone. -/
def TRWMutex.RUnlock (m : TRWMutex) : Outcome := call .RUnlock m
/-- `Upgrade()` run alone. -/
def TRWMutex.Upgrade (m : TRWMutex) : Outcome := call .Upgrade m
/-- `TryUpgrade()` run alone. -/
def TRWMutex.TryUpgrade (m : TRWMutex) : Outcome := call .TryUpgrade m

/-! ## Threads -/

/-- A thread is either outside the lock's methods, holding `h`, or inside one
of them, about to execute line `l`. -/
inductive Thr where
  | outside (h : Hold)
  | inside (l : Loc)
deriving DecidableEq, Repr

/-- Correct usage: which method a thread may call, given what it holds. -/
def allowed : Hold → Op → Bool
  | .none, .Lock => true
  | .none, .TryLock => true
  | .none, .RLock => true
  | .none, .TryRLock => true
  | .read, .RUnlock => true
  | .read, .Upgrade => true
  | .read, .TryUpgrade => true
  | .write, .Unlock => true
  | _, _ => false

/-- The lock together with the threads that use it. -/
structure Sys where
  m : TRWMutex
  thr : List Thr
deriving DecidableEq, Repr

/-- An idle lock shared by `n` threads that hold nothing. -/
def Sys.init (n : Nat) : Sys := ⟨TRWMutex.zero, List.replicate n (.outside .none)⟩

/-- One scheduling decision. -/
inductive Act where
  /-- Thread `t`, outside the methods, calls `o`. -/
  | call (t : Nat) (o : Op)
  /-- Thread `t`, inside a method, executes its next statement. -/
  | run (t : Nat)
deriving DecidableEq, Repr

/-- One step of the system; `none` when the action is not possible (no such
thread, a call that breaks correct usage, a statement that has to wait or
fails). -/
def step (s : Sys) : Act → Option Sys
  | .call t o =>
    match s.thr[t]? with
    | some (.outside h) =>
      if allowed h o then some ⟨s.m, s.thr.set t (.inside o.entry)⟩ else none
    | _ => none
  | .run t =>
    match s.thr[t]? with
    | some (.inside l) =>
      match exec l s.m with
      | .goto m1 l1 => some ⟨m1, s.thr.set t (.inside l1)⟩
      | .ret m1 _ h => some ⟨m1, s.thr.set t (.outside h)⟩
      | .wait => none
      | .fatal => none
    | _ => none

/-- A finite schedule, action by action. -/
def execs (s : Sys) : List Act → Option Sys
  | [] => some s
  | a :: as =>
    match step s a with
    | some s1 => execs s1 as
    | none => none

/-- The states `n` threads can reach from an idle lock under correct usage. -/
def Reach (n : Nat) (s : Sys) : Prop := ∃ as, execs (Sys.init n) as = some s

/-! ## Classification of thread states and the invariant -/

/-- Number of threads whose state satisfies `p`. -/
def cnt (p : Thr → Bool) (thr : List Thr) : Int := (thr.countP p : Nat)

/-- Lines at which the executing thread holds the guard `mu`. -/
def Loc.inMu : Loc → Bool
  | .l16 | .l17 | .l19 | .l23 | .l24 => true
  | .l31 | .l33 | .l36 | .l38 | .l39 => true
  | .l46 | .l47 | .l48 => true
  | .l54 | .l55 | .l57 | .l61 | .l62 => true
  | .l69 | .l71 | .l74 | .l76 | .l77 => true
  | .l84 | .l85 | .l86 => true
  | .l94 | .l95 | .l98 | .l99 | .l100 | .l104 | .l105 | .l107 | .l108 => true
  | .l117 | .l119 | .l122 | .l123 | .l124 | .l126 | .l127 => true
  | _ => false

/-- Lines at which the executing thread is counted in `w`: its increment has
been executed and the matching decrement has not. -/
def Loc.inW : Loc → Bool
  | .l17 | .l19 | .l20 | .l23 | .l24 => true
  | .l38 | .l39 | .l40 => true
  | .l45 | .l46 => true
  | .l95 | .l98 | .l99 | .l100 | .l101 | .l104 | .l105 | .l107 | .l108 => true
  | .l123 | .l124 | .l126 | .l127 | .l128 => true
  | _ => false

/-- Lines at which the executing thread is counted in `r`. -/
def Loc.inR : Loc → Bool
  | .l55 | .l57 | .l58 | .l61 | .l62 => true
  | .l76 | .l77 | .l78 => true
  | .l83 | .l84 => true
  | .l93 | .l94 | .l95 | .l98 | .l99 | .l104 | .l105 => true
  | .l116 | .l117 | .l119 | .l120 | .l122 | .l123 | .l124 => true
  | _ => false

/-- Lines at which the executing thread has the exclusive hold of the core:
its `rwmu.Lock()` has completed and its `rwmu.Unlock()` has not. -/
def Loc.holdsW : Loc → Bool
  | .l24 => true
  | .l39 | .l40 => true
  | .l45 | .l46 | .l47 => true
  | .l108 => true
  | .l127 | .l128 => true
  | _ => false

/-- Lines at which the executing thread has a shared hold of the core. -/
def Loc.holdsR : Loc → Bool
  | .l62 => true
  | .l77 | .l78 => true
  | .l83 | .l84 | .l85 => true
  | .l93 | .l94 | .l95 | .l98 | .l104 => true
  | .l116 | .l117 | .l119 | .l120 | .l122 | .l123 => true
  | _ => false

/-- The thread holds the guard. -/
def Thr.inMu : Thr → Bool
  | .outside _ => false
  | .inside l => l.inMu

/-- The thread is waiting for or holding the write lock. -/
def Thr.inW : Thr → Bool
  | .outside h => h = .write
  | .inside l => l.inW

/-- The thread is waiting for or holding a read lock. -/
def Thr.inR : Thr → Bool
  | .outside h => h = .read
  | .inside l => l.inR

/-- The thread holds the lock in write mode. -/
def Thr.holdsW : Thr → Bool
  | .outside h => h = .write
  | .inside l => l.holdsW

/-- The thread holds the lock in read mode. -/
def Thr.holdsR : Thr → Bool
  | .outside h => h = .read
  | .inside l => l.holdsR

/-- What the thread at line `l` knows about the counters from the test it has
passed while holding the guard. -/
def guardFact : Loc → TRWMutex → Prop
  | .l23, m => m.r ≤ 0 ∧ m.w ≤ 1
  | .l24, m => m.r ≤ 0 ∧ m.w ≤ 1
  | .l36, m => m.r ≤ 0 ∧ m.w ≤ 0
  | .l38, m => m.r ≤ 0 ∧ m.w ≤ 1
  | .l39, m => m.r ≤ 0 ∧ m.w ≤ 1
  | .l61, m => m.w ≤ 0
  | .l62, m => m.w ≤ 0
  | .l74, m => m.w ≤ 0
  | .l76, m => m.w ≤ 0
  | .l77, m => m.w ≤ 0
  | .l104, m => m.r ≤ 1 ∧ m.w ≤ 1
  | .l105, m => m.r ≤ 1 ∧ m.w ≤ 1
  | .l107, m => m.r ≤ 0 ∧ m.w ≤ 1
  | .l108, m => m.r ≤ 0 ∧ m.w ≤ 1
  | .l122, m => m.r ≤ 1 ∧ m.w ≤ 1
  | .l123, m => m.r ≤ 1 ∧ m.w ≤ 2
  | .l124, m => m.r ≤ 1 ∧ m.w ≤ 2
  | .l126, m => m.r ≤ 0 ∧ m.w ≤ 2
  | .l127, m => m.r ≤ 0 ∧ m.w ≤ 2
  | _, _ => True

/-- The invariant of the system. -/
structure Inv (s : Sys) : Prop where
  hw : s.m.w = cnt Thr.inW s.thr
  hr : s.m.r = cnt Thr.inR s.thr
  hrd : (s.m.rwmu.readers : Int) = cnt Thr.holdsR s.thr
  hwr : cnt Thr.holdsW s.thr = if s.m.rwmu.writer then 1 else 0
  hex : s.m.rwmu.writer = true → s.m.rwmu.readers = 0
  hmu : cnt Thr.inMu s.thr = if s.m.mu.locked then 1 else 0
  hloc : ∀ (t : Nat) (l : Loc), s.thr[t]? = some (.inside l) → guardFact l s.m

/-- The struct and the thread state after a statement that completed. -/
def Res.next : Res → Option (TRWMutex × Thr)
  | .goto m l => some (m, .inside l)
  | .ret m _ h => some (m, .outside h)
  | .wait => none
  | .fatal => none

/-- The primitive action of a statement on the struct. -/
inductive Prim where
  | muLock | muUnlock | rwLock | rwUnlock | rwRLock | rwRUnlock
  | incW | decW | incR | decR | skip
deriving DecidableEq, Repr

/-- The struct after a primitive action, when it can complete. -/
def Prim.apply : Prim → TRWMutex → Option TRWMutex
  | .muLock, m => if m.mu.locked then none else some { m with mu := ⟨true⟩ }
  | .muUnlock, m => if m.mu.locked then some { m with mu := ⟨false⟩ } else none
  | .rwLock, m =>
    if m.rwmu.writer = false ∧ m.rwmu.readers = 0 then some { m with rwmu := ⟨true, 0⟩ } else none
  | .rwUnlock, m =>
    if m.rwmu.writer then some { m with rwmu := ⟨false, m.rwmu.readers⟩ } else none
  | .rwRLock, m =>
    if m.rwmu.writer then none else some { m with rwmu := ⟨false, m.rwmu.readers + 1⟩ }
  | .rwRUnlock, m =>
    if 0 < m.rwmu.readers then some { m with rwmu := ⟨m.rwmu.writer, m.rwmu.readers - 1⟩ }
    else none
  | .incW, m => some { m with w := m.w + 1 }
  | .decW, m => some { m with w := m.w - 1 }
  | .incR, m => some { m with r := m.r + 1 }
  | .decR, m => some { m with r := m.r - 1 }
  | .skip, m => some m

/-- The primitive action of the statement on each line. -/
def Loc.prim : Loc → Prim
  | .l15 | .l30 | .l45 | .l53 | .l68 | .l83 | .l93 | .l116 => .muLock
  | .l19 | .l24 | .l33 | .l39 | .l48 | .l57 | .l62 | .l71 | .l77 | .l86 | .l100 | .l108
  | .l119 | .l127 => .muUnlock
  | .l20 | .l23 | .l38 | .l101 | .l107 | .l126 => .rwLock
  | .l47 => .rwUnlock
  | .l58 | .l61 | .l76 => .rwRLock
  | .l85 | .l98 | .l104 | .l123 => .rwRUnlock
  | .l16 | .l36 | .l94 | .l122 => .incW
  | .l46 => .decW
  | .l54 | .l74 => .incR
  | .l84 | .l99 | .l105 | .l124 => .decR
  | .l17 | .l31 | .l34 | .l40 | .l55 | .l69 | .l72 | .l78 | .l95 | .l117 | .l120 | .l128 => .skip

/-- The thread state after the statement on each line, given the struct before
the statement. -/
def Loc.succ : Loc → TRWMutex → Thr
  | .l15, _ => .inside .l16
  | .l16, _ => .inside .l17
  | .l17, m => .inside (if m.r > 0 ∨ m.w > 1 then .l19 else .l23)
  | .l19, _ => .inside .l20
  | .l20, _ => .outside .write
  | .l23, _ => .inside .l24
  | .l24, _ => .outside .write
  | .l30, _ => .inside .l31
  | .l31, m => .inside (if m.r > 0 ∨ m.w > 0 then .l33 else .l36)
  | .l33, _ => .inside .l34
  | .l34, _ => .outside .none
  | .l36, _ => .inside .l38
  | .l38, _ => .inside .l39
  | .l39, _ => .inside .l40
  | .l40, _ => .outside .write
  | .l45, _ => .inside .l46
  | .l46, _ => .inside .l47
  | .l47, _ => .inside .l48
  | .l48, _ => .outside .none
  | .l53, _ => .inside .l54
  | .l54, _ => .inside .l55
  | .l55, m => .inside (if m.w > 0 then .l57 else .l61)
  | .l57, _ => .inside .l58
  | .l58, _ => .outside .read
  | .l61, _ => .inside .l62
  | .l62, _ => .outside .read
  | .l68, _ => .inside .l69
  | .l69, m => .inside (if m.w > 0 then .l71 else .l74)
  | .l71, _ => .inside .l72
  | .l72, _ => .outside .none
  | .l74, _ => .inside .l76
  | .l76, _ => .inside .l77
  | .l77, _ => .inside .l78
  | .l78, _ => .outside .read
  | .l83, _ => .inside .l84
  | .l84, _ => .inside .l85
  | .l85, _ => .inside .l86
  | .l86, _ => .outside .none
  | .l93, _ => .inside .l94
  | .l94, _ => .inside .l95
  | .l95, m => .inside (if m.r > 1 ∨ m.w > 1 then .l98 else .l104)
  | .l98, _ => .inside .l99
  | .l99, _ => .inside .l100
  | .l100, _ => .inside .l101
  | .l101, _ => .outside .write
  | .l104, _ => .inside .l105
  | .l105, _ => .inside .l107
  | .l107, _ => .inside .l108
  | .l108, _ => .outside .write
  | .l116, _ => .inside .l117
  | .l117, m => .inside (if m.r > 1 ∨ m.w > 1 then .l119 else .l122)
  | .l119, _ => .inside .l120
  | .l120, _ => .outside .read
  | .l122, _ => .inside .l123
  | .l123, _ => .inside .l124
  | .l124, _ => .inside .l126
  | .l126, _ => .inside .l127
  | .l127, _ => .inside .l128
  | .l128, _ => .outside .write

/-- Change of `w` made by a primitive action. -/
def Prim.dW : Prim → Int
  | .incW => 1
  | .decW => -1
  | _ => 0

/-- Change of `r` made by a primitive action. -/
def Prim.dR : Prim → Int
  | .incR => 1
  | .decR => -1
  | _ => 0

/-- Change of the number of exclusive holds of the core. -/
def Prim.dHW : Prim → Int
  | .rwLock => 1
  | .rwUnlock => -1
  | _ => 0

/-- Change of the number of shared holds of the core. -/
def Prim.dHR : Prim → Int
  | .rwRLock => 1
  | .rwRUnlock => -1
  | _ => 0

/-- Change of the number of holds of the guard. -/
def Prim.dMu : Prim → Int
  | .muLock => 1
  | .muUnlock => -1
  | _ => 0

/-! ## Notions, schedules and states used in the statements -/

/-- Thread `t` calls `o` and then executes `k` statements. -/
def callRun (t : Nat) (o : Op) (k : Nat) : List Act :=
  .call t o :: List.replicate k (.run t)

/-- Thread 0 takes the write lock with `Lock()`. -/
def schedWriter : List Act := callRun 0 .Lock 5

/-- The state after `schedWriter`, for two threads. -/
def stateWriter : Sys :=
  ⟨⟨⟨false⟩, ⟨true, 0⟩, 1, 0⟩, [.outside .write, .outside .none]⟩

/-- Every thread is outside the methods and holds nothing. -/
def Sys.quiescent (s : Sys) : Prop :=
  ∀ (t : Nat) (a : Thr), s.thr[t]? = some a → a = .outside .none

/-- Two threads: thread 0 reads with `RLock()`, upgrades with `TryUpgrade()`
and releases with `Unlock()`, while thread 1 tries `TryRLock()` in between. -/
def schedQuiet : List Act :=
  callRun 0 .RLock 5 ++ callRun 0 .TryUpgrade 8 ++ callRun 1 .TryRLock 4 ++ callRun 0 .Unlock 4


/-- The boolean a call returned, if it returned one. -/
def Outcome.result : Outcome → Option Bool
  | .ret _ v _ => v
  | _ => none

/-- Thread 0 takes the write lock, thread 1 calls `Lock()` and waits at line
20, thread 0 releases with `Unlock()`, thread 2 calls `TryLock()` and reaches
its check on line 31 before thread 1 has been scheduled again. -/
def schedTryLock : List Act :=
  callRun 0 .Lock 5 ++ callRun 1 .Lock 4 ++ callRun 0 .Unlock 4 ++ callRun 2 .TryLock 1

/-- The state after `schedTryLock`, for three threads. -/
def stateTryLock : Sys :=
  ⟨⟨⟨true⟩, ⟨false, 0⟩, 1, 0⟩, [.outside .none, .inside .l20, .inside .l31]⟩

/-- Thread 0 takes a read lock, thread 1 calls `Lock()` and waits at line 20,
thread 2 calls `TryRLock()` and reaches its check on line 69. -/
def schedTryRLock : List Act :=
  callRun 0 .RLock 5 ++ callRun 1 .Lock 4 ++ callRun 2 .TryRLock 1

/-- The state after `schedTryRLock`, for three threads. -/
def stateTryRLock : Sys :=
  ⟨⟨⟨true⟩, ⟨false, 1⟩, 1, 1⟩, [.outside .read, .inside .l20, .inside .l69]⟩
/-- Lines of `Upgrade()`. -/
def Loc.inUpgrade : Loc → Bool
  | .l93 | .l94 | .l95 | .l98 | .l99 | .l100 | .l101 | .l104 | .l105 | .l107 | .l108 => true
  | _ => false

/-- Thread 0 takes a read lock, thread 1 calls `Lock()` and waits at line 20,
thread 0 calls `Upgrade()` and reaches its test on line 95. -/
def schedUpgradeTest : List Act :=
  callRun 0 .RLock 5 ++ callRun 1 .Lock 4 ++ callRun 0 .Upgrade 2

/-- The state after `schedUpgradeTest`, for two threads. -/
def stateUpgradeTest : Sys :=
  ⟨⟨⟨true⟩, ⟨false, 1⟩, 2, 1⟩, [.inside .l95, .inside .l20]⟩

/-- Thread 0 takes a read lock, thread 1 calls `Lock()` and waits at line 20,
thread 0 calls `Upgrade()`, which takes the waiting branch and releases its
shared hold; thread 1 then acquires the core and returns from `Lock()`. -/
def schedUpgrade : List Act :=
  callRun 0 .RLock 5 ++ callRun 1 .Lock 4 ++ callRun 0 .Upgrade 6 ++ [.run 1]

/-- The state after `schedUpgrade`, for two threads. -/
def stateUpgrade : Sys :=
  ⟨⟨⟨false⟩, ⟨true, 0⟩, 2, 0⟩, [.inside .l101, .outside .write]⟩

/-- Thread 0 takes a read lock, thread 1 calls `Lock()` and waits at line 20,
thread 0 calls `TryUpgrade()` and reaches its check on line 117. -/
def schedTryUpgrade : List Act :=
  callRun 0 .RLock 5 ++ callRun 1 .Lock 4 ++ callRun 0 .TryUpgrade 1

/-- The state after `schedTryUpgrade`, for two threads. -/
def stateTryUpgrade : Sys :=
  ⟨⟨⟨true⟩, ⟨false, 1⟩, 1, 1⟩, [.inside .l117, .inside .l20]⟩

/-- After `schedTryUpgrade`, thread 0 passes the check and releases its shared
hold (lines 117-124); thread 1 acquires the core, returns from `Lock()` and
calls `Unlock()`. -/
def schedTryUpgradeStuck : List Act :=
  schedTryUpgrade ++ [.run 0, .run 0, .run 0, .run 0, .run 1, .call 1 .Unlock]

/-- The state after `schedTryUpgradeStuck`, for two threads: thread 0 waits
for the core on line 126 with the guard held, thread 1 holds the core and waits
for the guard on line 45. -/
def stateTryUpgradeStuck : Sys :=
  ⟨⟨⟨true⟩, ⟨true, 0⟩, 2, 0⟩, [.inside .l126, .inside .l45]⟩
/-- A sequence of calls, one after the other, each run alone; `none` as soon
as one of them does not return.  The result lists, for every call, the value
it returned and the lines it executed, and gives the final struct. -/
def calls : List Op → TRWMutex → Option (List (Option Bool × List Loc) × TRWMutex)
  | [], m => some ([], m)
  | o :: os, m =>
    match call o m with
    | .ret m1 v _ => (calls os m1).map fun p => ((v, callTrace o m) :: p.1, p.2)
    | _ => none

/-- The value and the lines of a read acquisition that does not wait: the
branch of `RLock()` that acquires the core under the guard (lines 61-62), and
the successful path of `TryRLock()`. -/
def fastRead (o : Op) : Option Bool × List Loc :=
  if o = .RLock then (none, [.l53, .l54, .l55, .l61, .l62])
  else (some true, [.l68, .l69, .l74, .l76, .l77, .l78])
/-- The struct while one thread holds the write lock and nobody else is
registered: `w = 1`, `r = 0`, core held exclusively, guard free. -/
def TRWMutex.written : TRWMutex := ⟨⟨false⟩, ⟨true, 0⟩, 1, 0⟩

/-- The struct while one thread holds a read lock and nobody else is
registered: `w = 0`, `r = 1`, core held in shared mode once, guard free. -/
def TRWMutex.readOnce : TRWMutex := ⟨⟨false⟩, ⟨false, 1⟩, 0, 1⟩

/-- The value and the lines of a try-acquisition that fails: `TryLock()`
through lines 30, 31, 33, 34 and `TryRLock()` through lines 68, 69, 71, 72. -/
def failedTry (o : Op) : Option Bool × List Loc :=
  if o = .TryLock then (some false, [.l30, .l31, .l33, .l34])
  else (some false, [.l68, .l69, .l71, .l72])

/-- The value and the lines of a write acquisition on an idle lock: the branch
of `Lock()` that acquires the core under the guard, and the successful path of
`TryLock()`. -/
def fastWrite (o : Op) : Option Bool × List Loc :=
  if o = .Lock then (none, [.l15, .l16, .l17, .l23, .l24])
  else (some true, [.l30, .l31, .l36, .l38, .l39, .l40])
/-- Lines whose statement is the exclusive acquisition of the core,
`m.rwmu.Lock()`: a thread there is waiting for the write lock. -/
def Loc.waitsW : Loc → Bool
  | .l20 | .l23 | .l38 | .l101 | .l107 | .l126 => true
  | _ => false

/-- Lines whose statement is the shared acquisition of the core,
`m.rwmu.RLock()`: a thread there is waiting for a read lock. -/
def Loc.waitsR : Loc → Bool
  | .l58 | .l61 | .l76 => true
  | _ => false

/-- The thread is waiting for the write lock. -/
def Thr.waitsW : Thr → Bool
  | .outside _ => false
  | .inside l => l.waitsW

/-- The thread is waiting for a read lock. -/
def Thr.waitsR : Thr → Bool
  | .outside _ => false
  | .inside l => l.waitsR

/-- Thread 0 calls `Lock()` on an idle lock and is about to acquire the core
under the guard (line 23); thread 1 has called `TryLock()` and waits for the
guard. -/
def schedFastLock : List Act := callRun 0 .Lock 3 ++ [.call 1 .TryLock]

/-- The state after `schedFastLock`, for two threads. -/
def stateFastLock : Sys :=
  ⟨⟨⟨true⟩, ⟨false, 0⟩, 1, 0⟩, [.inside .l23, .inside .l30]⟩
/-- Thread 0 holds a read lock, thread 1 is waiting inside `Lock()` (line 20),
thread 2 is waiting inside `RLock()` (line 58); the guard is free. -/
def schedCounters : List Act :=
  callRun 0 .RLock 5 ++ callRun 1 .Lock 4 ++ callRun 2 .RLock 4

/-- The state after `schedCounters`, for three threads. -/
def stateCounters : Sys :=
  ⟨⟨⟨false⟩, ⟨false, 1⟩, 1, 2⟩, [.outside .read, .inside .l20, .inside .l58]⟩
/-- No action is possible: every thread is inside a method and its next
statement has to wait. -/
def Sys.stuck (s : Sys) : Prop := ∀ a : Act, step s a = none
/-- After `schedTryUpgrade`, thread 0 passes the check of `TryUpgrade()` and
releases its shared hold (lines 117-124); thread 1 then acquires the core and
returns from `Lock()`. -/
def schedTryUpgradeBlocked : List Act :=
  schedTryUpgrade ++ [.run 0, .run 0, .run 0, .run 0, .run 1]

/-- The state after `schedTryUpgradeBlocked`, for two threads: thread 0 is at
the `rwmu.Lock()` of `TryUpgrade()` (line 126) with the guard held, thread 1
holds the write lock. -/
def stateTryUpgradeBlocked : Sys :=
  ⟨⟨⟨true⟩, ⟨true, 0⟩, 2, 0⟩, [.inside .l126, .outside .write]⟩

/-- Threads 0 and 1 take a read lock each and are the only readers.  Thread 0
calls `Upgrade()`, takes the waiting branch and waits on line 101; thread 1
calls `TryUpgrade()`, passes the check with `r = 1`, `w = 1`, releases its
shared hold and reaches line 126; thread 0 acquires the core, returns from
`Upgrade()` and calls `Unlock()`. -/
def schedUpgradeTryUpgrade : List Act :=
  callRun 0 .RLock 5 ++ callRun 1 .RLock 5 ++ callRun 0 .Upgrade 6 ++
    callRun 1 .TryUpgrade 5 ++ [.run 0, .call 0 .Unlock]

/-- The state after `schedUpgradeTryUpgrade`, for two threads: thread 1 waits
for the core on line 126 with the guard held, thread 0 holds the core and waits
for the guard on line 45. -/
def stateUpgradeTryUpgrade : Sys :=
  ⟨⟨⟨true⟩, ⟨true, 0⟩, 2, 0⟩, [.inside .l45, .inside .l126]⟩

/-- Threads 0 and 1 take a read lock each and both call `Upgrade()`; both take
the waiting branch and wait on line 101 with the core free. -/
def schedUpgradePair : List Act :=
  callRun 0 .RLock 5 ++ callRun 1 .RLock 5 ++ callRun 0 .Upgrade 6 ++ callRun 1 .Upgrade 6

/-- The state after `schedUpgradePair`, for two threads. -/
def stateUpgradePair : Sys :=
  ⟨⟨⟨false⟩, ⟨false, 0⟩, 2, 0⟩, [.inside .l101, .inside .l101]⟩

/-- After `schedUpgradePair`: thread 0 is served, returns from `Upgrade()` and
releases with `Unlock()`; thread 1 is served next, returns and releases. -/
def schedUpgradePairDone : List Act :=
  schedUpgradePair ++ [.run 0] ++ callRun 0 .Unlock 4 ++ [.run 1] ++ callRun 1 .Unlock 4
/-! ## The counters as Go ints

`exec` computes the counters on the integers.  Go's `int` is a machine integer:
on the 64-bit platforms considered here `++` and `--` wrap around at
`2^63 - 1` and `-2^63`.  The definitions below are the same statements and the
same calls with that arithmetic. -/

/-- Largest value of a Go `int` (64 bits): `2^63 - 1`. -/
def maxInt : Int := 9223372036854775807

/-- Smallest value of a Go `int` (64 bits): `-2^63`. -/
def minInt : Int := -9223372036854775808

/-- The value of a Go `int` after an operation whose exact result is `x`: the
representative of `x` modulo `2^64` between `minInt` and `maxInt`. -/
def wrap64 (x : Int) : Int :=
  (x + 9223372036854775808) % 18446744073709551616 - 9223372036854775808

/-- Both counters are values of a Go `int`. -/
def TRWMutex.inRange (m : TRWMutex) : Prop :=
  minInt ≤ m.w ∧ m.w ≤ maxInt ∧ minInt ≤ m.r ∧ m.r ≤ maxInt

/-- The struct with both counters stored in a Go `int`. -/
def TRWMutex.wrap (m : TRWMutex) : TRWMutex := { m with w := wrap64 m.w, r := wrap64 m.r }

/-- The result of a statement with the counters stored in a Go `int`. -/
def Res.wrap : Res → Res
  | .goto m l => .goto m.wrap l
  | .ret m v h => .ret m.wrap v h
  | .wait => .wait
  | .fatal => .fatal

/-- The effect of the statement at each source line, with Go's 64-bit
arithmetic: what `exec` computes, stored in `int` counters. -/
def exec64 (l : Loc) (m : TRWMutex) : Res := (exec l m).wrap

/-- As `run`, with Go's 64-bit arithmetic. -/
def run64 : Nat → Loc → TRWMutex → Outcome
  | 0, _, _ => .fuel
  | n + 1, l, m =>
    match exec64 l m with
    | .goto m1 l1 => run64 n l1 m1
    | .ret m1 v h => .ret m1 v h
    | .wait => .wait m l
    | .fatal => .fatal m l

/-- As `trace`, with Go's 64-bit arithmetic. -/
def trace64 : Nat → Loc → TRWMutex → List Loc
  | 0, _, _ => []
  | n + 1, l, m =>
    match exec64 l m with
    | .goto m1 l1 => l :: trace64 n l1 m1
    | .ret _ _ _ => [l]
    | .wait => []
    | .fatal => []

/-- A whole call of method `o` on the struct `m`, run alone, with Go's 64-bit
arithmetic. -/
def call64 (o : Op) (m : TRWMutex) : Outcome := run64 callFuel o.entry m

/-- The lines executed by `call64 o m`. -/
def callTrace64 (o : Op) (m : TRWMutex) : List Loc := trace64 callFuel o.entry m

/-- As `calls`, with Go's 64-bit arithmetic. -/
def calls64 : List Op → TRWMutex → Option (List (Option Bool × List Loc) × TRWMutex)
  | [], m => some ([], m)
  | o :: os, m =>
    match call64 o m with
    | .ret m1 v _ => (calls64 os m1).map fun p => ((v, callTrace64 o m) :: p.1, p.2)
    | _ => none

/-- The struct with the guard and the core free, `r = 0` and `w` at the largest
value of an `int`. -/
def TRWMutex.fullW : TRWMutex := ⟨⟨false⟩, ⟨false, 0⟩, maxInt, 0⟩

/-- As `step`, with Go's 64-bit arithmetic. -/
def step64 (s : Sys) : Act → Option Sys
  | .call t o =>
    match s.thr[t]? with
    | some (.outside h) =>
      if allowed h o then some ⟨s.m, s.thr.set t (.inside o.entry)⟩ else none
    | _ => none
  | .run t =>
    match s.thr[t]? with
    | some (.inside l) =>
      match exec64 l s.m with
      | .goto m1 l1 => some ⟨m1, s.thr.set t (.inside l1)⟩
      | .ret m1 _ h => some ⟨m1, s.thr.set t (.outside h)⟩
      | .wait => none
      | .fatal => none
    | _ => none

/-- As `execs`, with Go's 64-bit arithmetic. -/
def execs64 (s : Sys) : List Act → Option Sys
  | [] => some s
  | a :: as =>
    match step64 s a with
    | some s1 => execs64 s1 as
    | none => none

/-- The states `n` threads can reach from an idle lock under correct usage,
with Go's 64-bit arithmetic. -/
def Reach64 (n : Nat) (s : Sys) : Prop := ∃ as, execs64 (Sys.init n) as = some s

/-- The struct and the state of a thread after the thread has executed `k`
statements with nobody else running, with Go's 64-bit arithmetic; `none` when
one of them has to wait or fails, or when the thread is outside the methods
before the `k` statements are done. -/
def steps64 : Nat → Thr → TRWMutex → Option (TRWMutex × Thr)
  | 0, a, m => some (m, a)
  | k + 1, .inside l, m =>
    match exec64 l m with
    | .goto m1 l1 => steps64 k (.inside l1) m1
    | .ret m1 _ h => steps64 k (.outside h) m1
    | .wait => none
    | .fatal => none
  | _ + 1, .outside _, _ => none

/-- Thread 0 holds a read lock, threads 1 to `k` have called `Lock()` and wait
for the core on line 20, and `j` more threads hold nothing. -/
def stateParked (k j : Nat) : Sys :=
  ⟨⟨⟨false⟩, ⟨false, 1⟩, k, 1⟩,
    .outside .read :: (List.replicate k (.inside .l20) ++ List.replicate j (.outside .none))⟩

/-- Thread 0 has released its read lock while `2^63 - 1` threads wait inside
`Lock()` on line 20: the guard and the core are free, `r = 0` and `w` is the
largest value of an `int`. -/
def stateFullW : Sys :=
  ⟨TRWMutex.fullW, .outside .none :: List.replicate 9223372036854775807 (.inside .l20)⟩
/-! ## The statements, line by line -/

theorem exec_l15 (m : TRWMutex) :
    exec .l15 m = m.mu.Lock.andThen fun mu => .goto { m with mu := mu } .l16 := rfl

theorem exec_l16 (m : TRWMutex) :
    exec .l16 m = .goto { m with w := m.w + 1 } .l17 := rfl

theorem exec_l17 (m : TRWMutex) :
    exec .l17 m = .goto m (if m.r > 0 ∨ m.w > 1 then .l19 else .l23) := rfl

theorem exec_l19 (m : TRWMutex) :
    exec .l19 m = m.mu.Unlock.andThen fun mu => .goto { m with mu := mu } .l20 := rfl

theorem exec_l20 (m : TRWMutex) :
    exec .l20 m = m.rwmu.Lock.andThen fun rw => .ret { m with rwmu := rw } none .write := rfl

theorem exec_l23 (m : TRWMutex) :
    exec .l23 m = m.rwmu.Lock.andThen fun rw => .goto { m with rwmu := rw } .l24 := rfl

theorem exec_l24 (m : TRWMutex) :
    exec .l24 m = m.mu.Unlock.andThen fun mu => .ret { m with mu := mu } none .write := rfl

theorem exec_l30 (m : TRWMutex) :
    exec .l30 m = m.mu.Lock.andThen fun mu => .goto { m with mu := mu } .l31 := rfl

theorem exec_l31 (m : TRWMutex) :
    exec .l31 m = .goto m (if m.r > 0 ∨ m.w > 0 then .l33 else .l36) := rfl

theorem exec_l33 (m : TRWMutex) :
    exec .l33 m = m.mu.Unlock.andThen fun mu => .goto { m with mu := mu } .l34 := rfl

theorem exec_l34 (m : TRWMutex) :
    exec .l34 m = .ret m (some false) .none := rfl

theorem exec_l36 (m : TRWMutex) :
    exec .l36 m = .goto { m with w := m.w + 1 } .l38 := rfl

theorem exec_l38 (m : TRWMutex) :
    exec .l38 m = m.rwmu.Lock.andThen fun rw => .goto { m with rwmu := rw } .l39 := rfl

theorem exec_l39 (m : TRWMutex) :
    exec .l39 m = m.mu.Unlock.andThen fun mu => .goto { m with mu := mu } .l40 := rfl

theorem exec_l40 (m : TRWMutex) :
    exec .l40 m = .ret m (some true) .write := rfl

theorem exec_l45 (m : TRWMutex) :
    exec .l45 m = m.mu.Lock.andThen fun mu => .goto { m with mu := mu } .l46 := rfl

theorem exec_l46 (m : TRWMutex) :
    exec .l46 m = .goto { m with w := m.w - 1 } .l47 := rfl

theorem exec_l47 (m : TRWMutex) :
    exec .l47 m = m.rwmu.Unlock.andThen fun rw => .goto { m with rwmu := rw } .l48 := rfl

theorem exec_l48 (m : TRWMutex) :
    exec .l48 m = m.mu.Unlock.andThen fun mu => .ret { m with mu := mu } none .none := rfl

theorem exec_l53 (m : TRWMutex) :
    exec .l53 m = m.mu.Lock.andThen fun mu => .goto { m with mu := mu } .l54 := rfl

theorem exec_l54 (m : TRWMutex) :
    exec .l54 m = .goto { m with r := m.r + 1 } .l55 := rfl

theorem exec_l55 (m : TRWMutex) :
    exec .l55 m = .goto m (if m.w > 0 then .l57 else .l61) := rfl

theorem exec_l57 (m : TRWMutex) :
    exec .l57 m = m.mu.Unlock.andThen fun mu => .goto { m with mu := mu } .l58 := rfl

theorem exec_l58 (m : TRWMutex) :
    exec .l58 m = m.rwmu.RLock.andThen fun rw => .ret { m with rwmu := rw } none .read := rfl

theorem exec_l61 (m : TRWMutex) :
    exec .l61 m = m.rwmu.RLock.andThen fun rw => .goto { m with rwmu := rw } .l62 := rfl

theorem exec_l62 (m : TRWMutex) :
    exec .l62 m = m.mu.Unlock.andThen fun mu => .ret { m with mu := mu } none .read := rfl

theorem exec_l68 (m : TRWMutex) :
    exec .l68 m = m.mu.Lock.andThen fun mu => .goto { m with mu := mu } .l69 := rfl

theorem exec_l69 (m : TRWMutex) :
    exec .l69 m = .goto m (if m.w > 0 then .l71 else .l74) := rfl

theorem exec_l71 (m : TRWMutex) :
    exec .l71 m = m.mu.Unlock.andThen fun mu => .goto { m with mu := mu } .l72 := rfl

theorem exec_l72 (m : TRWMutex) :
    exec .l72 m = .ret m (some false) .none := rfl

theorem exec_l74 (m : TRWMutex) :
    exec .l74 m = .goto { m with r := m.r + 1 } .l76 := rfl

theorem exec_l76 (m : TRWMutex) :
    exec .l76 m = m.rwmu.RLock.andThen fun rw => .goto { m with rwmu := rw } .l77 := rfl

theorem exec_l77 (m : TRWMutex) :
    exec .l77 m = m.mu.Unlock.andThen fun mu => .goto { m with mu := mu } .l78 := rfl

theorem exec_l78 (m : TRWMutex) :
    exec .l78 m = .ret m (some true) .read := rfl

theorem exec_l83 (m : TRWMutex) :
    exec .l83 m = m.mu.Lock.andThen fun mu => .goto { m with mu := mu } .l84 := rfl

theorem exec_l84 (m : TRWMutex) :
    exec .l84 m = .goto { m with r := m.r - 1 } .l85 := rfl

theorem exec_l85 (m : TRWMutex) :
    exec .l85 m = m.rwmu.RUnlock.andThen fun rw => .goto { m with rwmu := rw } .l86 := rfl

theorem exec_l86 (m : TRWMutex) :
    exec .l86 m = m.mu.Unlock.andThen fun mu => .ret { m with mu := mu } none .none := rfl

theorem exec_l93 (m : TRWMutex) :
    exec .l93 m = m.mu.Lock.andThen fun mu => .goto { m with mu := mu } .l94 := rfl

theorem exec_l94 (m : TRWMutex) :
    exec .l94 m = .goto { m with w := m.w + 1 } .l95 := rfl

theorem exec_l95 (m : TRWMutex) :
    exec .l95 m = .goto m (if m.r > 1 ∨ m.w > 1 then .l98 else .l104) := rfl

theorem exec_l98 (m : TRWMutex) :
    exec .l98 m = m.rwmu.RUnlock.andThen fun rw => .goto { m with rwmu := rw } .l99 := rfl

theorem exec_l99 (m : TRWMutex) :
    exec .l99 m = .goto { m with r := m.r - 1 } .l100 := rfl

theorem exec_l100 (m : TRWMutex) :
    exec .l100 m = m.mu.Unlock.andThen fun mu => .goto { m with mu := mu } .l101 := rfl

theorem exec_l101 (m : TRWMutex) :
    exec .l101 m = m.rwmu.Lock.andThen fun rw => .ret { m with rwmu := rw } none .write := rfl

theorem exec_l104 (m : TRWMutex) :
    exec .l104 m = m.rwmu.RUnlock.andThen fun rw => .goto { m with rwmu := rw } .l105 := rfl

theorem exec_l105 (m : TRWMutex) :
    exec .l105 m = .goto { m with r := m.r - 1 } .l107 := rfl

theorem exec_l107 (m : TRWMutex) :
    exec .l107 m = m.rwmu.Lock.andThen fun rw => .goto { m with rwmu := rw } .l108 := rfl

theorem exec_l108 (m : TRWMutex) :
    exec .l108 m = m.mu.Unlock.andThen fun mu => .ret { m with mu := mu } none .write := rfl

theorem exec_l116 (m : TRWMutex) :
    exec .l116 m = m.mu.Lock.andThen fun mu => .goto { m with mu := mu } .l117 := rfl

theorem exec_l117 (m : TRWMutex) :
    exec .l117 m = .goto m (if m.r > 1 ∨ m.w > 1 then .l119 else .l122) := rfl

theorem exec_l119 (m : TRWMutex) :
    exec .l119 m = m.mu.Unlock.andThen fun mu => .goto { m with mu := mu } .l120 := rfl

theorem exec_l120 (m : TRWMutex) :
    exec .l120 m = .ret m (some false) .read := rfl

theorem exec_l122 (m : TRWMutex) :
    exec .l122 m = .goto { m with w := m.w + 1 } .l123 := rfl

theorem exec_l123 (m : TRWMutex) :
    exec .l123 m = m.rwmu.RUnlock.andThen fun rw => .goto { m with rwmu := rw } .l124 := rfl

theorem exec_l124 (m : TRWMutex) :
    exec .l124 m = .goto { m with r := m.r - 1 } .l126 := rfl

theorem exec_l126 (m : TRWMutex) :
    exec .l126 m = m.rwmu.Lock.andThen fun rw => .goto { m with rwmu := rw } .l127 := rfl

theorem exec_l127 (m : TRWMutex) :
    exec .l127 m = m.mu.Unlock.andThen fun mu => .goto { m with mu := mu } .l128 := rfl

theorem exec_l128 (m : TRWMutex) :
    exec .l128 m = .ret m (some true) .write := rfl

/-! ## Counting threads, and the invariant along every schedule -/

theorem cnt_set (p : Thr → Bool) (thr : List Thr) (t : Nat) (a b : Thr)
    (h : thr[t]? = some a) :
    cnt p (thr.set t b) = cnt p thr - (if p a then 1 else 0) + (if p b then 1 else 0) := by
  obtain ⟨ht, rfl⟩ := List.getElem?_eq_some.mp h
  have h1 := List.countP_set p thr t b ht
  have h2 := List.boole_getElem_le_countP p thr t ht
  unfold cnt
  rw [h1]
  cases hpa : p thr[t] <;> cases hpb : p b <;>
    simp only [hpa, hpb, Bool.false_eq_true, if_true, if_false] at h2 ⊢ <;> omega

theorem cnt_nonneg (p : Thr → Bool) (thr : List Thr) : 0 ≤ cnt p thr := by
  unfold cnt; omega

theorem cnt_pos (p : Thr → Bool) (thr : List Thr) (t : Nat) (a : Thr)
    (h : thr[t]? = some a) (ha : p a = true) : 1 ≤ cnt p thr := by
  obtain ⟨ht, rfl⟩ := List.getElem?_eq_some.mp h
  have h2 := List.boole_getElem_le_countP p thr t ht
  unfold cnt
  rw [ha] at h2
  simp only [if_true] at h2
  omega

theorem cnt_two (p : Thr → Bool) (thr : List Thr) (i j : Nat) (a b : Thr)
    (hp : p (.outside .none) = false) (hij : i ≠ j)
    (hi : thr[i]? = some a) (hj : thr[j]? = some b) (ha : p a = true) (hb : p b = true) :
    2 ≤ cnt p thr := by
  have h1 := cnt_set p thr i a (.outside .none) hi
  have hj2 : (thr.set i (.outside .none))[j]? = some b := by
    rw [List.getElem?_set_ne hij]; exact hj
  have h2 := cnt_pos p _ j b hj2 hb
  simp [ha, hp] at h1
  omega

theorem cnt_mono (p q : Thr → Bool) (thr : List Thr) (h : ∀ a, p a = true → q a = true) :
    cnt p thr ≤ cnt q thr := by
  unfold cnt
  exact_mod_cast List.countP_mono_left (fun a _ => h a)

theorem cnt_eq_zero (p : Thr → Bool) (thr : List Thr) :
    cnt p thr = 0 ↔ ∀ (t : Nat) (a : Thr), thr[t]? = some a → p a = false := by
  unfold cnt
  constructor
  · intro h t a ht
    by_contra hc
    have := cnt_pos p thr t a ht (by simpa using hc)
    unfold cnt at this
    omega
  · intro h
    have : thr.countP p = 0 := by
      rw [List.countP_eq_zero]
      intro a ha
      obtain ⟨n, hn⟩ := List.getElem?_of_mem ha
      simp [h n a hn]
    omega


theorem inv_init (n : Nat) : Inv (Sys.init n) := by
  have h0 : ∀ p : Thr → Bool, p (.outside .none) = false →
      cnt p (List.replicate n (.outside .none)) = 0 := by
    intro p hp
    rw [cnt_eq_zero]
    intro t a ht
    rw [List.getElem?_replicate] at ht
    split at ht
    · cases ht; exact hp
    · cases ht
  constructor
  · simp only [Sys.init, TRWMutex.zero]; rw [h0 Thr.inW rfl]
  · simp only [Sys.init, TRWMutex.zero]; rw [h0 Thr.inR rfl]
  · simp only [Sys.init, TRWMutex.zero]; rw [h0 Thr.holdsR rfl]; rfl
  · simp only [Sys.init, TRWMutex.zero]; rw [h0 Thr.holdsW rfl]; rfl
  · intro _; rfl
  · simp only [Sys.init, TRWMutex.zero]; rw [h0 Thr.inMu rfl]; rfl
  · intro t l h1
    simp only [Sys.init] at h1
    rw [List.getElem?_replicate] at h1
    split at h1 <;> cases h1


theorem guardFact_of_not_inMu (l : Loc) (m : TRWMutex) (h : l.inMu = false) : guardFact l m := by
  cases l <;> trivial

theorem guardFact_congr (l : Loc) (m m' : TRWMutex) (hw : m'.w = m.w) (hr : m'.r = m.r)
    (h : guardFact l m) : guardFact l m' := by
  cases l <;> simp only [guardFact, hw, hr] at h ⊢ <;> exact h

theorem inv_update (s : Sys) (t : Nat) (a b : Thr) (m' : TRWMutex) (hinv : Inv s)
    (ht : s.thr[t]? = some a)
    (hw : m'.w = s.m.w - (if a.inW then 1 else 0) + (if b.inW then 1 else 0))
    (hr : m'.r = s.m.r - (if a.inR then 1 else 0) + (if b.inR then 1 else 0))
    (hrd : (m'.rwmu.readers : Int)
      = s.m.rwmu.readers - (if a.holdsR then 1 else 0) + (if b.holdsR then 1 else 0))
    (hwr : (if m'.rwmu.writer then 1 else 0 : Int)
      = (if s.m.rwmu.writer then 1 else 0) - (if a.holdsW then 1 else 0)
        + (if b.holdsW then 1 else 0))
    (hex : m'.rwmu.writer = true → m'.rwmu.readers = 0)
    (hmu : (if m'.mu.locked then 1 else 0 : Int)
      = (if s.m.mu.locked then 1 else 0) - (if a.inMu then 1 else 0)
        + (if b.inMu then 1 else 0))
    (hfr : a.inMu = false → m'.w = s.m.w ∧ m'.r = s.m.r)
    (hb : ∀ l, b = .inside l → guardFact l m') :
    Inv ⟨m', s.thr.set t b⟩ := by
  constructor
  · show m'.w = cnt Thr.inW (s.thr.set t b)
    rw [cnt_set _ _ _ a b ht, ← hinv.hw]; exact hw
  · show m'.r = cnt Thr.inR (s.thr.set t b)
    rw [cnt_set _ _ _ a b ht, ← hinv.hr]; exact hr
  · show (m'.rwmu.readers : Int) = cnt Thr.holdsR (s.thr.set t b)
    rw [cnt_set _ _ _ a b ht, ← hinv.hrd]; exact hrd
  · show cnt Thr.holdsW (s.thr.set t b) = if m'.rwmu.writer then 1 else 0
    rw [cnt_set _ _ _ a b ht, hinv.hwr]; exact hwr.symm
  · exact hex
  · show cnt Thr.inMu (s.thr.set t b) = if m'.mu.locked then 1 else 0
    rw [cnt_set _ _ _ a b ht, hinv.hmu]; exact hmu.symm
  · intro t' l hl
    show guardFact l m'
    by_cases htt : t = t'
    · subst htt
      have hlen : t < s.thr.length := (List.getElem?_eq_some.mp ht).1
      rw [List.getElem?_set_self hlen] at hl
      exact hb l (Option.some.inj hl)
    · simp only [] at hl
      rw [List.getElem?_set_ne htt] at hl
      have hold := hinv.hloc t' l hl
      cases hmul : l.inMu with
      | false => exact guardFact_of_not_inMu l m' hmul
      | true =>
        cases hmua : a.inMu with
        | false =>
          obtain ⟨h1, h2⟩ := hfr hmua
          exact guardFact_congr l s.m m' h1 h2 hold
        | true =>
          exfalso
          have h2 := cnt_two Thr.inMu s.thr t t' a (.inside l) rfl htt ht hl hmua hmul
          have h3 := hinv.hmu
          split at h3 <;> omega


theorem call_class (h : Hold) (o : Op) : allowed h o = true →
    (Thr.inside o.entry).inW = (Thr.outside h).inW ∧
    (Thr.inside o.entry).inR = (Thr.outside h).inR ∧
    (Thr.inside o.entry).holdsW = (Thr.outside h).holdsW ∧
    (Thr.inside o.entry).holdsR = (Thr.outside h).holdsR ∧
    (Thr.inside o.entry).inMu = false ∧ (Thr.outside h).inMu = false := by
  cases h <;> cases o <;> decide

theorem inv_call (s : Sys) (t : Nat) (h : Hold) (o : Op) (hinv : Inv s)
    (ht : s.thr[t]? = some (.outside h)) (ho : allowed h o = true) :
    Inv ⟨s.m, s.thr.set t (.inside o.entry)⟩ := by
  obtain ⟨e1, e2, e3, e4, e5, e6⟩ := call_class h o ho
  apply inv_update s t (.outside h) (.inside o.entry) s.m hinv ht
  · rw [e1]; omega
  · rw [e2]; omega
  · rw [e4]; omega
  · rw [e3]; omega
  · exact hinv.hex
  · rw [e5, e6]; simp
  · intro _; exact ⟨rfl, rfl⟩
  · intro l hl
    cases hl
    exact guardFact_of_not_inMu _ _ e5


theorem exec_next (l : Loc) (m : TRWMutex) :
    (exec l m).next = (l.prim.apply m).map fun m1 => (m1, l.succ m) := by
  obtain ⟨⟨mu⟩, ⟨wr, rd⟩, w, r⟩ := m
  cases l <;>
    simp only [exec, Loc.prim, Prim.apply, Loc.succ, Acq.andThen, Res.next, Mutex.Lock,
      Mutex.Unlock, RWMutex.Lock, RWMutex.Unlock, RWMutex.RLock, RWMutex.RUnlock] <;>
    first
      | rfl
      | (split_ifs <;> rfl)


theorem prim_effect (k : Prim) (m m1 : TRWMutex) (h : k.apply m = some m1)
    (hex : m.rwmu.writer = true → m.rwmu.readers = 0) :
    m1.w = m.w + k.dW ∧ m1.r = m.r + k.dR ∧
    (m1.rwmu.readers : Int) = m.rwmu.readers + k.dHR ∧
    (if m1.rwmu.writer then 1 else 0 : Int) = (if m.rwmu.writer then 1 else 0) + k.dHW ∧
    (if m1.mu.locked then 1 else 0 : Int) = (if m.mu.locked then 1 else 0) + k.dMu ∧
    (m1.rwmu.writer = true → m1.rwmu.readers = 0) := by
  obtain ⟨⟨mu⟩, ⟨wr, rd⟩, w, r⟩ := m
  cases k <;> cases mu <;> cases wr <;>
    simp [Prim.apply, Prim.dW, Prim.dR, Prim.dHW, Prim.dHR, Prim.dMu] at h hex ⊢ <;>
    (try subst h) <;> (try (obtain ⟨h0, rfl⟩ := h)) <;> simp_all <;> omega


theorem succ_cases (l : Loc) (m : TRWMutex) :
    l.succ m = l.succ TRWMutex.zero ∨ l.succ m = l.succ ⟨⟨false⟩, ⟨false, 0⟩, 2, 2⟩ := by
  cases l <;> simp only [Loc.succ] <;>
    first
      | exact Or.inl trivial
      | (split <;> first | (left; decide) | (right; decide))

set_option maxHeartbeats 4000000 in
theorem succ_class (l : Loc) (m : TRWMutex) :
    (if (l.succ m).inW then 1 else 0 : Int) = (if l.inW then 1 else 0) + l.prim.dW ∧
    (if (l.succ m).inR then 1 else 0 : Int) = (if l.inR then 1 else 0) + l.prim.dR ∧
    (if (l.succ m).holdsW then 1 else 0 : Int) = (if l.holdsW then 1 else 0) + l.prim.dHW ∧
    (if (l.succ m).holdsR then 1 else 0 : Int) = (if l.holdsR then 1 else 0) + l.prim.dHR ∧
    (if (l.succ m).inMu then 1 else 0 : Int) = (if l.inMu then 1 else 0) + l.prim.dMu := by
  rcases succ_cases l m with h | h <;> rw [h] <;> cases l <;> decide

theorem prim_frame (l : Loc) (h : l.inMu = false) : l.prim.dW = 0 ∧ l.prim.dR = 0 := by
  revert h; cases l <;> decide


set_option maxHeartbeats 4000000 in
theorem guard_succ (l : Loc) (m m1 : TRWMutex) (hg : guardFact l m)
    (hp : l.prim.apply m = some m1) (l1 : Loc) (hl : l.succ m = .inside l1) :
    guardFact l1 m1 := by
  obtain ⟨⟨mu⟩, ⟨wr, rd⟩, w, r⟩ := m
  cases l <;> simp [Loc.prim, Prim.apply, Loc.succ] at hp hl <;>
    (try (obtain ⟨hc, rfl⟩ := hp)) <;>
    (try (split at hl)) <;>
    subst hl <;> simp only [guardFact] at hg ⊢ <;>
    (try trivial) <;> (try omega)


theorem inv_exec (s : Sys) (t : Nat) (l : Loc) (m1 : TRWMutex) (b : Thr) (hinv : Inv s)
    (ht : s.thr[t]? = some (.inside l)) (hx : (exec l s.m).next = some (m1, b)) :
    Inv ⟨m1, s.thr.set t b⟩ := by
  rw [exec_next] at hx
  cases hp : l.prim.apply s.m with
  | none => rw [hp] at hx; cases hx
  | some m2 =>
    rw [hp] at hx
    simp only [Option.map_some', Option.some.injEq, Prod.mk.injEq] at hx
    obtain ⟨rfl, rfl⟩ := hx
    obtain ⟨e1, e2, e3, e4, e5, e6⟩ := prim_effect l.prim s.m m2 hp hinv.hex
    obtain ⟨c1, c2, c3, c4, c5⟩ := succ_class l s.m
    apply inv_update s t (.inside l) (l.succ s.m) m2 hinv ht
    · simp only [Thr.inW] at c1 ⊢; omega
    · simp only [Thr.inR] at c2 ⊢; omega
    · simp only [Thr.holdsR] at c4 ⊢; omega
    · simp only [Thr.holdsW] at c3 ⊢; omega
    · exact e6
    · simp only [Thr.inMu] at c5 ⊢; omega
    · intro hmu
      obtain ⟨f1, f2⟩ := prim_frame l hmu
      constructor <;> omega
    · intro l1 hl1
      exact guard_succ l s.m m2 (hinv.hloc t l ht) hp l1 hl1

theorem inv_step (s s1 : Sys) (a : Act) (hinv : Inv s) (h : step s a = some s1) : Inv s1 := by
  cases a with
  | call t o =>
    simp only [step] at h
    split at h
    · rename_i hd hget
      split at h
      · rename_i ho
        cases h
        exact inv_call s t hd o hinv hget ho
      · cases h
    · cases h
  | run t =>
    simp only [step] at h
    split at h
    · rename_i l hget
      split at h
      · rename_i m2 l2 hx
        cases h
        exact inv_exec s t l m2 (.inside l2) hinv hget (by rw [hx]; rfl)
      · rename_i m2 v hd hx
        cases h
        exact inv_exec s t l m2 (.outside hd) hinv hget (by rw [hx]; rfl)
      · cases h
      · cases h
    · cases h

theorem inv_execs (as : List Act) (s s1 : Sys) (hinv : Inv s) (h : execs s as = some s1) :
    Inv s1 := by
  induction as generalizing s with
  | nil => simp only [execs] at h; cases h; exact hinv
  | cons a as ih =>
    simp only [execs] at h
    split at h
    · rename_i s2 hs
      exact ih s2 (inv_step s s2 a hinv hs) h
    · cases h

theorem inv_reach (n : Nat) (s : Sys) (h : Reach n s) : Inv s := by
  obtain ⟨as, has⟩ := h
  exact inv_execs as _ s (inv_init n) has


/-! ## Mutual exclusion and counter consistency -/

theorem holdsW_inW (a : Thr) (h : a.holdsW = true) : a.inW = true ∨ a.inMu = true := by
  cases a with
  | outside hd => exact Or.inl h
  | inside l => revert h; cases l <;> decide

theorem holdsR_inR (a : Thr) (h : a.holdsR = true) : a.inR = true ∨ a.inMu = true := by
  cases a with
  | outside hd => exact Or.inl h
  | inside l => revert h; cases l <;> decide

theorem reach_stateWriter : Reach 2 stateWriter := ⟨schedWriter, rfl⟩

theorem holdsW_excl (s : Sys) (inv : Inv s) (i j : Nat) (a b : Thr)
    (hi : s.thr[i]? = some a) (hj : s.thr[j]? = some b) (ha : a.holdsW = true) :
    (b.holdsW = true → i = j) ∧ b.holdsR = false := by
  have h1 := cnt_pos Thr.holdsW s.thr i a hi ha
  have hwr := inv.hwr
  have hw : s.m.rwmu.writer = true := by
    cases hc : s.m.rwmu.writer with
    | true => rfl
    | false => rw [hc] at hwr; simp at hwr; omega
  constructor
  · intro hb
    by_contra hij
    have h2 := cnt_two Thr.holdsW s.thr i j a b rfl hij hi hj ha hb
    rw [hw] at hwr
    simp at hwr
    omega
  · have hrd := inv.hrd
    rw [inv.hex hw] at hrd
    exact (cnt_eq_zero Thr.holdsR s.thr).mp hrd.symm j b hj

/-- C1 (mutual exclusion).  In every state that any number of threads can reach
from an idle lock by any interleaving of their statements, under correct usage:
if a thread holds the lock in write mode then no other thread holds it in write
mode, and no thread holds it in read mode.  A thread holds the lock in a mode
from the completion of its acquisition of the core to the start of its release,
which includes the whole time between the return of the acquiring call and the
call of the releasing one. -/
theorem mutual_exclusion (n : Nat) (s : Sys) (h : Reach n s) (i j : Nat) (a b : Thr)
    (hi : s.thr[i]? = some a) (hj : s.thr[j]? = some b) (ha : a.holdsW = true) :
    (b.holdsW = true → i = j) ∧ b.holdsR = false :=
  holdsW_excl s (inv_reach n s h) i j a b hi hj ha

theorem mutual_exclusion_witness :
    Reach 2 stateWriter ∧
      ((Thr.outside .none).holdsW = true → 0 = 1) ∧ (Thr.outside .none).holdsR = false :=
  ⟨reach_stateWriter,
    mutual_exclusion 2 stateWriter reach_stateWriter 0 1 (.outside .write) (.outside .none)
      rfl rfl rfl⟩

/-- C8 (counter consistency).  Starting from an idle lock, after any finite
interleaving of calls by any number of threads under correct usage, if every
call has returned and every acquired lock has been released (every thread is
outside the methods and holds nothing), then `w = 0` and `r = 0`; the core and
the guard are free as well. -/
theorem counter_consistency (n : Nat) (s : Sys) (h : Reach n s) (hq : s.quiescent) :
    s.m.w = 0 ∧ s.m.r = 0 ∧ s.m.rwmu = ⟨false, 0⟩ ∧ s.m.mu = ⟨false⟩ := by
  have inv := inv_reach n s h
  have z : ∀ p : Thr → Bool, p (.outside .none) = false → cnt p s.thr = 0 := by
    intro p hp
    rw [cnt_eq_zero]
    intro t a ht
    rw [hq t a ht]; exact hp
  have hw := inv.hw
  have hr := inv.hr
  have hrd := inv.hrd
  have hwr := inv.hwr
  have hmu := inv.hmu
  rw [z Thr.inW rfl] at hw
  rw [z Thr.inR rfl] at hr
  rw [z Thr.holdsR rfl] at hrd
  rw [z Thr.holdsW rfl] at hwr
  rw [z Thr.inMu rfl] at hmu
  obtain ⟨⟨⟨mu⟩, ⟨wr, rd⟩, w, r⟩, thr⟩ := s
  simp only at hw hr hrd hwr hmu
  refine ⟨hw, hr, ?_, ?_⟩
  · cases wr
    · simp only [Nat.cast_eq_zero] at hrd; rw [hrd]
    · simp at hwr
  · cases mu
    · rfl
    · simp at hmu

theorem counter_consistency_witness :
    Reach 2 (Sys.init 2) ∧ (Sys.init 2).m.w = 0 ∧ (Sys.init 2).m.r = 0
      ∧ (Sys.init 2).m.rwmu = ⟨false, 0⟩ ∧ (Sys.init 2).m.mu = ⟨false⟩ :=
  ⟨⟨schedQuiet, by decide⟩,
    counter_consistency 2 (Sys.init 2) ⟨schedQuiet, by decide⟩ (by
      intro t a ht
      simp only [Sys.init] at ht
      rw [List.getElem?_replicate] at ht
      split at ht <;> cases ht
      rfl)⟩

/-! ## The try-acquisitions at their check -/

theorem cnt_exists (p : Thr → Bool) (thr : List Thr) (h : 1 ≤ cnt p thr) :
    ∃ (j : Nat) (b : Thr), thr[j]? = some b ∧ p b = true := by
  by_contra hc
  have : cnt p thr = 0 := by
    rw [cnt_eq_zero]
    intro t a ht
    cases hp : p a with
    | false => rfl
    | true => exact absurd ⟨t, a, ht, hp⟩ hc
  omega

theorem guard_locked (s : Sys) (inv : Inv s) (t : Nat) (a : Thr) (ht : s.thr[t]? = some a)
    (hmu : a.inMu = true) : s.m.mu.locked = true := by
  have h1 := cnt_pos Thr.inMu s.thr t a ht hmu
  have h2 := inv.hmu
  cases hc : s.m.mu.locked with
  | true => rfl
  | false => rw [hc] at h2; simp at h2; omega

theorem guard_unique (s : Sys) (inv : Inv s) (t j : Nat) (a b : Thr)
    (ht : s.thr[t]? = some a) (hj : s.thr[j]? = some b)
    (ha : a.inMu = true) (hb : b.inMu = true) : t = j := by
  by_contra hne
  have h1 := cnt_two Thr.inMu s.thr t j a b rfl hne ht hj ha hb
  have h2 := inv.hmu
  split at h2 <;> omega

theorem no_writer (s : Sys) (inv : Inv s) (t : Nat) (a : Thr) (ht : s.thr[t]? = some a)
    (hmu : a.inMu = true) (ha : a.holdsW = false) (hw : cnt Thr.inW s.thr = 0) :
    s.m.rwmu.writer = false := by
  cases hc : s.m.rwmu.writer with
  | false => rfl
  | true =>
    exfalso
    have h2 := inv.hwr
    rw [hc] at h2
    obtain ⟨j, b, hj, hb⟩ := cnt_exists Thr.holdsW s.thr (by rw [h2]; simp)
    rcases holdsW_inW b hb with h3 | h3
    · have := (cnt_eq_zero Thr.inW s.thr).mp hw j b hj
      rw [this] at h3; cases h3
    · have e := guard_unique s inv t j a b ht hj hmu h3
      subst e
      rw [ht] at hj
      cases hj
      rw [ha] at hb; cases hb

theorem no_readers (s : Sys) (inv : Inv s) (t : Nat) (a : Thr) (ht : s.thr[t]? = some a)
    (hmu : a.inMu = true) (ha : a.holdsR = false) (hr : cnt Thr.inR s.thr = 0) :
    s.m.rwmu.readers = 0 := by
  by_contra hc
  have h2 := inv.hrd
  obtain ⟨j, b, hj, hb⟩ := cnt_exists Thr.holdsR s.thr (by omega)
  rcases holdsR_inR b hb with h3 | h3
  · have := (cnt_eq_zero Thr.inR s.thr).mp hr j b hj
    rw [this] at h3; cases h3
  · have e := guard_unique s inv t j a b ht hj hmu h3
    subst e
    rw [ht] at hj
    cases hj
    rw [ha] at hb; cases hb

theorem run_l31 (m : TRWMutex) (hmu : m.mu.locked = true) :
    run callFuel .l31 m =
      if m.r > 0 ∨ m.w > 0 then .ret { m with mu := ⟨false⟩ } (some false) .none
      else if m.rwmu.writer = false ∧ m.rwmu.readers = 0 then
        .ret ⟨⟨false⟩, ⟨true, 0⟩, m.w + 1, m.r⟩ (some true) .write
      else .wait { m with w := m.w + 1 } .l38 := by
  obtain ⟨⟨mu⟩, ⟨wr, rd⟩, w, r⟩ := m
  simp only at hmu
  subst hmu
  cases wr <;> rcases rd with _ | rd <;> by_cases h : (r > 0 ∨ w > 0) <;>
    simp [callFuel, run, exec_l31, exec_l33, exec_l34, exec_l36, exec_l38, exec_l39, exec_l40,
      Acq.andThen, Mutex.Unlock, RWMutex.Lock, h]

theorem run_l69 (m : TRWMutex) (hmu : m.mu.locked = true) :
    run callFuel .l69 m =
      if m.w > 0 then .ret { m with mu := ⟨false⟩ } (some false) .none
      else if m.rwmu.writer = false then
        .ret ⟨⟨false⟩, ⟨false, m.rwmu.readers + 1⟩, m.w, m.r + 1⟩ (some true) .read
      else .wait { m with r := m.r + 1 } .l76 := by
  obtain ⟨⟨mu⟩, ⟨wr, rd⟩, w, r⟩ := m
  simp only at hmu
  subst hmu
  cases wr <;> by_cases h : w > 0 <;>
    simp [callFuel, run, exec_l69, exec_l71, exec_l72, exec_l74, exec_l76, exec_l77, exec_l78,
      Acq.andThen, Mutex.Unlock, RWMutex.RLock, h]

theorem mutual_free (s : Sys) (inv : Inv s) (t : Nat) (a : Thr) (ht : s.thr[t]? = some a)
    (hmu : a.inMu = true) (haW : a.holdsW = false) (haR : a.holdsR = false)
    (hw : cnt Thr.inW s.thr = 0) (hr : cnt Thr.inR s.thr = 0) (j : Nat) (b : Thr)
    (hj : s.thr[j]? = some b) : b.holdsW = false ∧ b.holdsR = false := by
  have f1 := no_writer s inv t a ht hmu haW hw
  have f2 := no_readers s inv t a ht hmu haR hr
  have h1 := inv.hwr
  have h2 := inv.hrd
  rw [f1] at h1
  rw [f2] at h2
  constructor
  · exact (cnt_eq_zero _ _).mp (by simpa using h1) j b hj
  · exact (cnt_eq_zero _ _).mp (by simpa using h2.symm) j b hj
theorem reach_stateTryLock : Reach 3 stateTryLock := ⟨schedTryLock, by decide⟩

theorem reach_stateTryRLock : Reach 3 stateTryRLock := ⟨schedTryRLock, by decide⟩

theorem thr3_cases (a0 a1 a2 : Thr) (P : Thr → Prop) (h0 : P a0) (h1 : P a1) (h2 : P a2)
    (j : Nat) (b : Thr) (hj : [a0, a1, a2][j]? = some b) : P b := by
  match j, hj with
  | 0, hj => cases hj; exact h0
  | 1, hj => cases hj; exact h1
  | 2, hj => cases hj; exact h2
  | _ + 3, hj => cases hj

/-- C2, as stated, fails.  Three threads reach a state in which thread 2 is at
the check of `TryLock()` (line 31) and no thread holds the lock in any mode
(thread 0 has released it, thread 1 is still waiting inside `Lock()`), yet
`TryLock()` does not return true: it returns false, because `w = 1`. -/
theorem tryLock_claim_fails :
    ¬ (∀ (n : Nat) (s : Sys) (t : Nat), Reach n s → s.thr[t]? = some (.inside .l31) →
        ((run callFuel .l31 s.m).result = some true ↔
          ∀ (j : Nat) (b : Thr), s.thr[j]? = some b → b.holdsW = false ∧ b.holdsR = false)) := by
  intro h
  have h1 := (h 3 stateTryLock 2 reach_stateTryLock rfl).mpr
    (thr3_cases _ _ _ (fun b => b.holdsW = false ∧ b.holdsR = false)
      (by decide) (by decide) (by decide))
  revert h1
  decide

/-- C2, amended.  In every state reachable under correct usage in which a
thread is at the check of `TryLock()` (line 31), the call returns true if and
only if no thread is holding or waiting for the lock in either mode (the
counters `w` and `r` also count the threads that have announced themselves and
not yet acquired the core).  Whenever it returns true, no thread holds the lock
in any mode.  The statement is about the call from its check on: the thread has
passed `m.mu.Lock()` on line 30 and holds the guard. -/
theorem tryLock_sound (n : Nat) (s : Sys) (t : Nat) (h : Reach n s)
    (ht : s.thr[t]? = some (.inside .l31)) :
    ((run callFuel .l31 s.m).result = some true ↔
      ∀ (j : Nat) (b : Thr), s.thr[j]? = some b → b.inW = false ∧ b.inR = false) ∧
    ((run callFuel .l31 s.m).result = some true →
      ∀ (j : Nat) (b : Thr), s.thr[j]? = some b → b.holdsW = false ∧ b.holdsR = false) := by
  have inv := inv_reach n s h
  have hmu := guard_locked s inv t _ ht rfl
  have hW := cnt_nonneg Thr.inW s.thr
  have hR := cnt_nonneg Thr.inR s.thr
  have hw := inv.hw
  have hr := inv.hr
  rw [run_l31 s.m hmu]
  by_cases hc : s.m.r > 0 ∨ s.m.w > 0
  · rw [if_pos hc]
    simp only [Outcome.result]
    refine ⟨⟨fun h1 => (by cases h1), fun h1 => ?_⟩, fun h1 => (by cases h1)⟩
    exfalso
    have z1 : cnt Thr.inW s.thr = 0 :=
      (cnt_eq_zero _ _).mpr fun j b hj => (h1 j b hj).1
    have z2 : cnt Thr.inR s.thr = 0 :=
      (cnt_eq_zero _ _).mpr fun j b hj => (h1 j b hj).2
    omega
  · rw [if_neg hc]
    have z1 : cnt Thr.inW s.thr = 0 := by omega
    have z2 : cnt Thr.inR s.thr = 0 := by omega
    have f1 := no_writer s inv t _ ht rfl rfl z1
    have f2 := no_readers s inv t _ ht rfl rfl z2
    rw [if_pos ⟨f1, f2⟩]
    simp only [Outcome.result, true_iff, true_implies]
    have hall : ∀ (j : Nat) (b : Thr), s.thr[j]? = some b → b.inW = false ∧ b.inR = false :=
      fun j b hj => ⟨(cnt_eq_zero _ _).mp z1 j b hj, (cnt_eq_zero _ _).mp z2 j b hj⟩
    refine ⟨hall, fun j b hj => ?_⟩
    have hx := mutual_free s inv t _ ht rfl rfl rfl z1 z2 j b hj
    exact hx

theorem tryLock_sound_witness :
    ((run callFuel .l31 stateTryLock.m).result = some true ↔
      ∀ (j : Nat) (b : Thr), stateTryLock.thr[j]? = some b → b.inW = false ∧ b.inR = false) ∧
    ((run callFuel .l31 stateTryLock.m).result = some true →
      ∀ (j : Nat) (b : Thr), stateTryLock.thr[j]? = some b →
        b.holdsW = false ∧ b.holdsR = false) :=
  tryLock_sound 3 stateTryLock 2 reach_stateTryLock rfl
/-- C3, as stated, fails.  Three threads reach a state in which thread 2 is at
the check of `TryRLock()` (line 69) and no thread holds the lock in write mode
(thread 0 holds a read lock, thread 1 is waiting inside `Lock()`), yet
`TryRLock()` does not return true: it returns false, because `w = 1`. -/
theorem tryRLock_claim_fails :
    ¬ (∀ (n : Nat) (s : Sys) (t : Nat), Reach n s → s.thr[t]? = some (.inside .l69) →
        ((run callFuel .l69 s.m).result = some true ↔
          ∀ (j : Nat) (b : Thr), s.thr[j]? = some b → b.holdsW = false)) := by
  intro h
  have h1 := (h 3 stateTryRLock 2 reach_stateTryRLock rfl).mpr
    (thr3_cases _ _ _ (fun b => b.holdsW = false) (by decide) (by decide) (by decide))
  revert h1
  decide

/-- C3, amended.  In every state reachable under correct usage in which a
thread is at the check of `TryRLock()` (line 69), the call returns true if and
only if no thread is holding or waiting for the lock in write mode (the counter
`w` also counts the writers that have announced themselves and not yet acquired
the core).  Whenever it returns true, no thread holds the lock in write mode.
The statement is about the call from its check on: the thread has passed
`m.mu.Lock()` on line 68 and holds the guard. -/
theorem tryRLock_sound (n : Nat) (s : Sys) (t : Nat) (h : Reach n s)
    (ht : s.thr[t]? = some (.inside .l69)) :
    ((run callFuel .l69 s.m).result = some true ↔
      ∀ (j : Nat) (b : Thr), s.thr[j]? = some b → b.inW = false) ∧
    ((run callFuel .l69 s.m).result = some true →
      ∀ (j : Nat) (b : Thr), s.thr[j]? = some b → b.holdsW = false) := by
  have inv := inv_reach n s h
  have hmu := guard_locked s inv t _ ht rfl
  have hW := cnt_nonneg Thr.inW s.thr
  have hw := inv.hw
  rw [run_l69 s.m hmu]
  by_cases hc : s.m.w > 0
  · rw [if_pos hc]
    refine ⟨⟨fun h1 => (by cases h1), fun h1 => ?_⟩, fun h1 => (by cases h1)⟩
    exfalso
    have z1 : cnt Thr.inW s.thr = 0 := (cnt_eq_zero _ _).mpr fun j b hj => h1 j b hj
    omega
  · rw [if_neg hc]
    have z1 : cnt Thr.inW s.thr = 0 := by omega
    have f1 := no_writer s inv t _ ht rfl rfl z1
    rw [if_pos f1]
    refine ⟨⟨fun _ => (cnt_eq_zero _ _).mp z1, fun _ => rfl⟩, fun _ j b hj => ?_⟩
    have h1 := inv.hwr
    rw [f1] at h1
    exact (cnt_eq_zero _ _).mp (by simpa using h1) j b hj

theorem tryRLock_sound_witness :
    ((run callFuel .l69 stateTryRLock.m).result = some true ↔
      ∀ (j : Nat) (b : Thr), stateTryRLock.thr[j]? = some b → b.inW = false) ∧
    ((run callFuel .l69 stateTryRLock.m).result = some true →
      ∀ (j : Nat) (b : Thr), stateTryRLock.thr[j]? = some b → b.holdsW = false) :=
  tryRLock_sound 3 stateTryRLock 2 reach_stateTryRLock rfl
/-! ## Upgrade and TryUpgrade among other threads -/

/-- C6: the code at the failing input.  Thread 0 holds a read lock, thread 1
has called `Lock()` and is parked on line 20, thread 0 calls `Upgrade()`.  At
its test (line 95) `w = 2`, so the call takes the waiting branch (line 98): it
releases its read hold and waits for the core on line 101 like a `Lock()`.  The
parked `Lock()` of thread 1 is served first: thread 1 holds the write lock
while thread 0 is still inside `Upgrade()` and has to wait.  So it is not the
case that no other thread holds the write lock during an `Upgrade()`. -/
theorem upgrade_overtaken_by_lock :
    execs (Sys.init 2) schedUpgradeTest = some stateUpgradeTest ∧
    stateUpgradeTest.m.w = 2 ∧
    exec .l95 stateUpgradeTest.m = .goto stateUpgradeTest.m .l98 ∧
    execs (Sys.init 2) schedUpgrade = some stateUpgrade ∧
    stateUpgrade.thr[0]? = some (.inside .l101) ∧
    stateUpgrade.thr[1]? = some (.outside .write) ∧
    (Thr.outside .write).holdsW = true ∧
    exec .l101 stateUpgrade.m = .wait ∧
    ¬ (∀ (n : Nat) (s : Sys) (i j : Nat) (l : Loc) (b : Thr), Reach n s →
        s.thr[i]? = some (.inside l) → l.inUpgrade = true → s.thr[j]? = some b → i ≠ j →
        b.holdsW = false) := by
  refine ⟨by decide, rfl, by decide, by decide, rfl, rfl, rfl, by decide, fun h => ?_⟩
  have h1 := h 2 stateUpgrade 0 1 .l101 (.outside .write) ⟨schedUpgrade, by decide⟩ rfl rfl rfl
    (by decide)
  revert h1
  decide

theorem reach_stateTryUpgrade : Reach 2 stateTryUpgrade := ⟨schedTryUpgrade, by decide⟩

theorem reach_stateTryUpgradeStuck : Reach 2 stateTryUpgradeStuck :=
  ⟨schedTryUpgradeStuck, by decide⟩

theorem stuck_stateTryUpgradeStuck (a : Act) : step stateTryUpgradeStuck a = none := by
  cases a with
  | call t o =>
    match t with
    | 0 => rfl
    | 1 => rfl
    | _ + 2 => rfl
  | run t =>
    match t with
    | 0 => rfl
    | 1 => rfl
    | _ + 2 => rfl

/-- C4: the code at the failing input.  Two threads reach, under correct usage,
a state in which thread 0 holds a read lock and is at the check of
`TryUpgrade()` (line 117) with `r = 1` and `w = 1`: thread 1 has called
`Lock()` and is waiting for the core on line 20.  The check lets the call
through.  Run to its end from there, `TryUpgrade()` returns true although a
writer is contending; and when thread 1 is scheduled right after thread 0 has
released its shared hold, the system reaches a state in which thread 0 waits
for the core on line 126 with the guard held, thread 1 holds the core and
waits for the guard, and no thread can take a step. -/
theorem tryUpgrade_with_waiting_writer :
    Reach 2 stateTryUpgrade ∧ stateTryUpgrade.m.r = 1 ∧ stateTryUpgrade.m.w = 1 ∧
    exec .l117 stateTryUpgrade.m = .goto stateTryUpgrade.m .l122 ∧
    (run callFuel .l117 stateTryUpgrade.m).result = some true ∧
    (call .TryUpgrade ⟨⟨false⟩, ⟨false, 1⟩, 1, 1⟩).result = some true ∧
    Reach 2 stateTryUpgradeStuck ∧ (∀ a : Act, step stateTryUpgradeStuck a = none) :=
  ⟨reach_stateTryUpgrade, rfl, rfl, by decide, by decide, by decide,
    reach_stateTryUpgradeStuck, stuck_stateTryUpgradeStuck⟩
/-! ## Single calls -/

theorem call_wait_of_locked (o : Op) (m : TRWMutex) (hmu : m.mu.locked = true) :
    call o m = .wait m o.entry := by
  obtain ⟨⟨mu⟩, rw, w, r⟩ := m
  simp only at hmu
  subst hmu
  cases o <;> rfl

theorem call_TryLock (m : TRWMutex) (hmu : m.mu.locked = false) :
    call .TryLock m =
      if m.r > 0 ∨ m.w > 0 then .ret m (some false) .none
      else if m.rwmu.writer = false ∧ m.rwmu.readers = 0 then
        .ret ⟨⟨false⟩, ⟨true, 0⟩, m.w + 1, m.r⟩ (some true) .write
      else .wait ⟨⟨true⟩, m.rwmu, m.w + 1, m.r⟩ .l38 := by
  obtain ⟨⟨mu⟩, ⟨wr, rd⟩, w, r⟩ := m
  simp only at hmu
  subst hmu
  cases wr <;> rcases rd with _ | rd <;> by_cases h : (r > 0 ∨ w > 0) <;>
    simp [call, Op.entry, callFuel, run, exec_l30, exec_l31, exec_l33, exec_l34, exec_l36,
      exec_l38, exec_l39, exec_l40, Acq.andThen, Mutex.Lock, Mutex.Unlock, RWMutex.Lock, h]

theorem call_TryRLock (m : TRWMutex) (hmu : m.mu.locked = false) :
    call .TryRLock m =
      if m.w > 0 then .ret m (some false) .none
      else if m.rwmu.writer = false then
        .ret ⟨⟨false⟩, ⟨false, m.rwmu.readers + 1⟩, m.w, m.r + 1⟩ (some true) .read
      else .wait ⟨⟨true⟩, m.rwmu, m.w, m.r + 1⟩ .l76 := by
  obtain ⟨⟨mu⟩, ⟨wr, rd⟩, w, r⟩ := m
  simp only at hmu
  subst hmu
  cases wr <;> by_cases h : w > 0 <;>
    simp [call, Op.entry, callFuel, run, exec_l68, exec_l69, exec_l71, exec_l72, exec_l74,
      exec_l76, exec_l77, exec_l78, Acq.andThen, Mutex.Lock, Mutex.Unlock, RWMutex.RLock, h]

theorem call_TryUpgrade (m : TRWMutex) (hmu : m.mu.locked = false) :
    call .TryUpgrade m =
      if m.r > 1 ∨ m.w > 1 then .ret m (some false) .read
      else if 0 < m.rwmu.readers then
        if m.rwmu.writer = false ∧ m.rwmu.readers - 1 = 0 then
          .ret ⟨⟨false⟩, ⟨true, 0⟩, m.w + 1, m.r - 1⟩ (some true) .write
        else .wait ⟨⟨true⟩, ⟨m.rwmu.writer, m.rwmu.readers - 1⟩, m.w + 1, m.r - 1⟩ .l126
      else .fatal ⟨⟨true⟩, m.rwmu, m.w + 1, m.r⟩ .l123 := by
  obtain ⟨⟨mu⟩, ⟨wr, rd⟩, w, r⟩ := m
  simp only at hmu
  subst hmu
  cases wr <;> rcases rd with _ | _ | rd <;> by_cases h : (r > 1 ∨ w > 1) <;>
    simp [call, Op.entry, callFuel, run, exec_l116, exec_l117, exec_l119, exec_l120, exec_l122,
      exec_l123, exec_l124, exec_l126, exec_l127, exec_l128, Acq.andThen, Mutex.Lock,
      Mutex.Unlock, RWMutex.Lock, RWMutex.RUnlock, h]

theorem call_RLock (m : TRWMutex) (hmu : m.mu.locked = false) :
    call .RLock m =
      if m.w > 0 then
        if m.rwmu.writer = false then
          .ret ⟨⟨false⟩, ⟨false, m.rwmu.readers + 1⟩, m.w, m.r + 1⟩ none .read
        else .wait ⟨⟨false⟩, m.rwmu, m.w, m.r + 1⟩ .l58
      else if m.rwmu.writer = false then
        .ret ⟨⟨false⟩, ⟨false, m.rwmu.readers + 1⟩, m.w, m.r + 1⟩ none .read
      else .wait ⟨⟨true⟩, m.rwmu, m.w, m.r + 1⟩ .l61 := by
  obtain ⟨⟨mu⟩, ⟨wr, rd⟩, w, r⟩ := m
  simp only at hmu
  subst hmu
  cases wr <;> by_cases h : w > 0 <;>
    simp [call, Op.entry, callFuel, run, exec_l53, exec_l54, exec_l55, exec_l57, exec_l58,
      exec_l61, exec_l62, Acq.andThen, Mutex.Lock, Mutex.Unlock, RWMutex.RLock, h]
/-- C5 (no state change on Try failure).  For every state of the struct,
whenever `TryLock()`, `TryRLock()` or `TryUpgrade()` returns false, the struct
is exactly what it was before the call: `w`, `r`, the holds of the core and the
guard are unchanged.  After a failed `TryUpgrade()` the caller still holds its
read lock; after a failed `TryLock()` or `TryRLock()` it holds nothing. -/
theorem try_failure_no_change (o : Op) (m m1 : TRWMutex) (h : Hold)
    (ho : o = .TryLock ∨ o = .TryRLock ∨ o = .TryUpgrade)
    (hr : call o m = .ret m1 (some false) h) :
    m1 = m ∧ h = (if o = .TryUpgrade then .read else .none) := by
  cases hmu : m.mu.locked with
  | true => rw [call_wait_of_locked o m hmu] at hr; cases hr
  | false =>
    rcases ho with rfl | rfl | rfl
    · rw [call_TryLock m hmu] at hr
      split at hr
      · cases hr; exact ⟨rfl, rfl⟩
      · split at hr <;> cases hr
    · rw [call_TryRLock m hmu] at hr
      split at hr
      · cases hr; exact ⟨rfl, rfl⟩
      · split at hr <;> cases hr
    · rw [call_TryUpgrade m hmu] at hr
      split at hr
      · cases hr; exact ⟨rfl, rfl⟩
      · split at hr
        · split at hr <;> cases hr
        · cases hr

theorem try_failure_no_change_witness :
    call .TryUpgrade ⟨⟨false⟩, ⟨false, 2⟩, 0, 2⟩
      = .ret ⟨⟨false⟩, ⟨false, 2⟩, 0, 2⟩ (some false) .read ∧
    ((⟨⟨false⟩, ⟨false, 2⟩, 0, 2⟩ : TRWMutex) = ⟨⟨false⟩, ⟨false, 2⟩, 0, 2⟩ ∧
      Hold.read = (if Op.TryUpgrade = Op.TryUpgrade then Hold.read else Hold.none)) :=
  ⟨by decide,
    try_failure_no_change .TryUpgrade ⟨⟨false⟩, ⟨false, 2⟩, 0, 2⟩ ⟨⟨false⟩, ⟨false, 2⟩, 0, 2⟩
      .read (Or.inr (Or.inr rfl)) (by decide)⟩

/-- C7 (Upgrade, single-reader case).  From every state with the guard free,
`w = 0`, `r = 1` and the core held in shared mode exactly once, `Upgrade()`
executes lines 93, 94, 95, 104, 105, 107, 108: it takes the branch that
acquires the core exclusively (line 107) before it releases the guard (line
108), and it returns without waiting, in the state `w = 1`, `r = 0`, core held
exclusively with no shared hold, guard free; the caller holds the write
lock. -/
theorem upgrade_single_reader (m : TRWMutex) (hmu : m.mu.locked = false) (hw : m.w = 0)
    (hr : m.r = 1) (hcore : m.rwmu = ⟨false, 1⟩) :
    callTrace .Upgrade m = [.l93, .l94, .l95, .l104, .l105, .l107, .l108] ∧
    call .Upgrade m = .ret ⟨⟨false⟩, ⟨true, 0⟩, 1, 0⟩ none .write := by
  obtain ⟨⟨mu⟩, rw, w, r⟩ := m
  simp only at hmu hw hr hcore
  subst hmu hw hr hcore
  exact ⟨by decide, by decide⟩

theorem upgrade_single_reader_witness :
    callTrace .Upgrade ⟨⟨false⟩, ⟨false, 1⟩, 0, 1⟩
      = [.l93, .l94, .l95, .l104, .l105, .l107, .l108] ∧
    call .Upgrade ⟨⟨false⟩, ⟨false, 1⟩, 0, 1⟩ = .ret ⟨⟨false⟩, ⟨true, 0⟩, 1, 0⟩ none .write :=
  upgrade_single_reader ⟨⟨false⟩, ⟨false, 1⟩, 0, 1⟩ rfl rfl rfl rfl

theorem callTrace_RLock (m : TRWMutex) (hmu : m.mu.locked = false) (hw : m.w ≤ 0)
    (hwr : m.rwmu.writer = false) :
    callTrace .RLock m = [.l53, .l54, .l55, .l61, .l62] := by
  obtain ⟨⟨mu⟩, ⟨wr, rd⟩, w, r⟩ := m
  simp only at hmu hw hwr
  subst hmu hwr
  have h : ¬ w > 0 := by omega
  simp [callTrace, Op.entry, callFuel, trace, exec_l53, exec_l54, exec_l55, exec_l61, exec_l62,
    Acq.andThen, Mutex.Lock, Mutex.Unlock, RWMutex.RLock, h]

theorem callTrace_TryRLock (m : TRWMutex) (hmu : m.mu.locked = false) (hw : m.w ≤ 0)
    (hwr : m.rwmu.writer = false) :
    callTrace .TryRLock m = [.l68, .l69, .l74, .l76, .l77, .l78] := by
  obtain ⟨⟨mu⟩, ⟨wr, rd⟩, w, r⟩ := m
  simp only at hmu hw hwr
  subst hmu hwr
  have h : ¬ w > 0 := by omega
  simp [callTrace, Op.entry, callFuel, trace, exec_l68, exec_l69, exec_l74, exec_l76, exec_l77,
    exec_l78, Acq.andThen, Mutex.Lock, Mutex.Unlock, RWMutex.RLock, h]
/-! ## The decision of TryLock -/

theorem idle_core (s : Sys) (inv : Inv s) (hmu : s.m.mu.locked = false)
    (hw : s.m.w = 0) (hr : s.m.r = 0) :
    s.m.rwmu.writer = false ∧ s.m.rwmu.readers = 0 := by
  have zmu : cnt Thr.inMu s.thr = 0 := by
    have h := inv.hmu
    rw [hmu] at h
    simpa using h
  have zw : cnt Thr.inW s.thr = 0 := by rw [← inv.hw]; exact hw
  have zr : cnt Thr.inR s.thr = 0 := by rw [← inv.hr]; exact hr
  constructor
  · cases hc : s.m.rwmu.writer with
    | false => rfl
    | true =>
      exfalso
      have h2 := inv.hwr
      rw [hc] at h2
      obtain ⟨j, b, hj, hb⟩ := cnt_exists Thr.holdsW s.thr (by rw [h2]; simp)
      rcases holdsW_inW b hb with h3 | h3
      · have := (cnt_eq_zero Thr.inW s.thr).mp zw j b hj
        rw [this] at h3; cases h3
      · have := (cnt_eq_zero Thr.inMu s.thr).mp zmu j b hj
        rw [this] at h3; cases h3
  · by_contra hc
    have h2 := inv.hrd
    obtain ⟨j, b, hj, hb⟩ := cnt_exists Thr.holdsR s.thr (by omega)
    rcases holdsR_inR b hb with h3 | h3
    · have := (cnt_eq_zero Thr.inR s.thr).mp zr j b hj
      rw [this] at h3; cases h3
    · have := (cnt_eq_zero Thr.inMu s.thr).mp zmu j b hj
      rw [this] at h3; cases h3

/-- C10 (decision and effect of `TryLock()`).  In every state reachable under
correct usage: when the guard is free, a call of `TryLock()` returns true
exactly when `r = 0` and `w = 0` before the call, and returns false otherwise;
when a thread is at the check of `TryLock()` (line 31, guard held by it), the
call returns true exactly when `r = 0` and `w = 0` there.  Whenever the call
returns true, `w` has increased by exactly 1, `r` is unchanged, the core is
held exclusively and the caller holds the write lock. -/
theorem tryLock_rule (n : Nat) (s : Sys) (h : Reach n s) :
    (s.m.mu.locked = false →
      ((call .TryLock s.m).result = some true ↔ s.m.r = 0 ∧ s.m.w = 0) ∧
      ((call .TryLock s.m).result = some false ↔ ¬ (s.m.r = 0 ∧ s.m.w = 0)) ∧
      (∀ (m1 : TRWMutex) (hd : Hold), call .TryLock s.m = .ret m1 (some true) hd →
        m1.w = s.m.w + 1 ∧ m1.r = s.m.r ∧ m1.rwmu = ⟨true, 0⟩ ∧ hd = .write)) ∧
    (∀ t : Nat, s.thr[t]? = some (.inside .l31) →
      ((run callFuel .l31 s.m).result = some true ↔ s.m.r = 0 ∧ s.m.w = 0) ∧
      ((run callFuel .l31 s.m).result = some false ↔ ¬ (s.m.r = 0 ∧ s.m.w = 0)) ∧
      (∀ (m1 : TRWMutex) (hd : Hold), run callFuel .l31 s.m = .ret m1 (some true) hd →
        m1.w = s.m.w + 1 ∧ m1.r = s.m.r ∧ m1.rwmu = ⟨true, 0⟩ ∧ hd = .write)) := by
  have inv := inv_reach n s h
  have hW := cnt_nonneg Thr.inW s.thr
  have hR := cnt_nonneg Thr.inR s.thr
  have hw := inv.hw
  have hr := inv.hr
  constructor
  · intro hmu
    rw [call_TryLock s.m hmu]
    by_cases hc : s.m.r > 0 ∨ s.m.w > 0
    · rw [if_pos hc]
      refine ⟨⟨fun h1 => (by cases h1), fun h1 => ?_⟩, ⟨fun _ => ?_, fun _ => rfl⟩,
        fun m1 hd h1 => (by cases h1)⟩
      · omega
      · omega
    · rw [if_neg hc]
      have z : s.m.r = 0 ∧ s.m.w = 0 := ⟨by omega, by omega⟩
      rw [if_pos (idle_core s inv hmu z.2 z.1)]
      refine ⟨⟨fun _ => z, fun _ => rfl⟩, ⟨fun h1 => (by cases h1), fun h1 => absurd z h1⟩,
        fun m1 hd h1 => ?_⟩
      cases h1
      exact ⟨rfl, rfl, rfl, rfl⟩
  · intro t ht
    have hmu := guard_locked s inv t _ ht rfl
    rw [run_l31 s.m hmu]
    by_cases hc : s.m.r > 0 ∨ s.m.w > 0
    · rw [if_pos hc]
      refine ⟨⟨fun h1 => (by cases h1), fun h1 => ?_⟩, ⟨fun _ => ?_, fun _ => rfl⟩,
        fun m1 hd h1 => (by cases h1)⟩
      · omega
      · omega
    · rw [if_neg hc]
      have z : s.m.r = 0 ∧ s.m.w = 0 := ⟨by omega, by omega⟩
      have z1 : cnt Thr.inW s.thr = 0 := by omega
      have z2 : cnt Thr.inR s.thr = 0 := by omega
      have f1 := no_writer s inv t _ ht rfl rfl z1
      have f2 := no_readers s inv t _ ht rfl rfl z2
      rw [if_pos ⟨f1, f2⟩]
      refine ⟨⟨fun _ => z, fun _ => rfl⟩, ⟨fun h1 => (by cases h1), fun h1 => absurd z h1⟩,
        fun m1 hd h1 => ?_⟩
      cases h1
      exact ⟨rfl, rfl, rfl, rfl⟩

theorem tryLock_rule_witness :
    Reach 3 stateTryLock ∧ stateTryLock.thr[2]? = some (.inside .l31) ∧
    ((run callFuel .l31 stateTryLock.m).result = some false ↔
      ¬ (stateTryLock.m.r = 0 ∧ stateTryLock.m.w = 0)) ∧
    ((call .TryLock (Sys.init 3).m).result = some true ↔
      (Sys.init 3).m.r = 0 ∧ (Sys.init 3).m.w = 0) :=
  ⟨reach_stateTryLock, rfl, ((tryLock_rule 3 stateTryLock reach_stateTryLock).2 2 rfl).2.1,
    ((tryLock_rule 3 (Sys.init 3) ⟨[], rfl⟩).1 rfl).1⟩
/-! ## Scenarios -/

theorem calls_append (os1 os2 : List Op) (m : TRWMutex) :
    calls (os1 ++ os2) m =
      match calls os1 m with
      | some (r1, m1) => (calls os2 m1).map fun p => (r1 ++ p.1, p.2)
      | none => none := by
  induction os1 generalizing m with
  | nil =>
    simp only [List.nil_append, calls]
    cases calls os2 m with
    | none => rfl
    | some p => rfl
  | cons o os ih =>
    simp only [List.cons_append, calls]
    cases hc : call o m with
    | ret m1 v h =>
      simp only []
      rw [show os.append os2 = os ++ os2 from rfl, ih m1]
      cases h1 : calls os m1 with
      | none => rfl
      | some p =>
        obtain ⟨r1, m2⟩ := p
        simp only [Option.map_some']
        cases calls os2 m2 with
        | none => rfl
        | some q => rfl
    | wait m1 l => rfl
    | fatal m1 l => rfl
    | fuel => rfl

theorem calls_failedTry (os : List Op) (hos : ∀ o ∈ os, o = .TryRLock ∨ o = .TryLock) :
    calls os TRWMutex.written = some (os.map failedTry, TRWMutex.written) := by
  induction os with
  | nil => rfl
  | cons o os ih =>
    have ih1 := ih fun o ho => hos o (List.mem_cons_of_mem _ ho)
    rcases hos o (List.mem_cons_self _ _) with rfl | rfl
    · have h1 : call .TryRLock TRWMutex.written = .ret TRWMutex.written (some false) .none := by
        decide
      have h2 : callTrace .TryRLock TRWMutex.written = [.l68, .l69, .l71, .l72] := by decide
      simp only [calls, h1, h2, ih1, Option.map_some', List.map_cons]
      rfl
    · have h1 : call .TryLock TRWMutex.written = .ret TRWMutex.written (some false) .none := by
        decide
      have h2 : callTrace .TryLock TRWMutex.written = [.l30, .l31, .l33, .l34] := by decide
      simp only [calls, h1, h2, ih1, Option.map_some', List.map_cons]
      rfl

theorem mem_replicate_TryRLock (k : Nat) :
    ∀ o ∈ List.replicate k Op.TryRLock, o = .TryRLock ∨ o = .TryLock :=
  fun _ ho => Or.inl (List.eq_of_mem_replicate ho)

theorem calls_acquire_then (o : Op) (ho : o = .Lock ∨ o = .TryLock) (os : List Op) :
    calls (o :: os) TRWMutex.zero =
      (calls os TRWMutex.written).map fun p => (fastWrite o :: p.1, p.2) := by
  rcases ho with rfl | rfl
  · have h1 : call .Lock TRWMutex.zero = .ret TRWMutex.written none .write := by decide
    have h2 : callTrace .Lock TRWMutex.zero = [.l15, .l16, .l17, .l23, .l24] := by decide
    simp only [calls, h1, h2]
    rfl
  · have h1 : call .TryLock TRWMutex.zero = .ret TRWMutex.written (some true) .write := by
      decide
    have h2 : callTrace .TryLock TRWMutex.zero = [.l30, .l31, .l36, .l38, .l39, .l40] := by
      decide
    simp only [calls, h1, h2]
    rfl

theorem try_fails_while_written (n : Nat) (s : Sys) (t j : Nat) (b : Thr) (hr : Reach n s)
    (hj : s.thr[j]? = some b) (hb : b.holdsW = true) :
    (s.thr[t]? = some (.inside .l69) → (run callFuel .l69 s.m).result = some false) ∧
    (s.thr[t]? = some (.inside .l31) → (run callFuel .l31 s.m).result = some false) := by
  have inv := inv_reach n s hr
  have key : ∀ l : Loc, s.thr[t]? = some (.inside l) → l.inMu = true → l.holdsW = false →
      s.m.mu.locked = true ∧ s.m.w > 0 := by
    intro l ht hmu hnw
    refine ⟨guard_locked s inv t _ ht hmu, ?_⟩
    have hin : b.inW = true := by
      rcases holdsW_inW b hb with k | k
      · exact k
      · have e := guard_unique s inv t j _ b ht hj hmu k
        subst e
        rw [ht] at hj
        cases hj
        simp only [Thr.holdsW] at hb
        rw [hnw] at hb
        cases hb
    have h1 := cnt_pos Thr.inW s.thr j b hj hin
    have h2 := inv.hw
    omega
  constructor
  · intro ht
    obtain ⟨hmu, hw⟩ := key .l69 ht rfl rfl
    rw [run_l69 s.m hmu, if_pos hw]
    rfl
  · intro ht
    obtain ⟨hmu, hw⟩ := key .l31 ht rfl rfl
    rw [run_l31 s.m hmu, if_pos (Or.inr hw)]
    rfl

/-- C11 (scenario C generalised).  For every `k`: starting from an idle lock,
after a write acquisition by `Lock()` or by `TryLock()` (which returns true),
`k` calls of `TryRLock()` all return false and leave the struct as it was
(`w = 1`, `r = 0`, core held exclusively); after the matching `Unlock()` the
next `TryRLock()` returns true and leaves `r = 1`, `w = 0`, the core held in
shared mode once.  Moreover, among any number of threads and in every
reachable state, a `TryRLock()` at its check returns false whenever some thread
holds the write lock. -/
theorem scenario_C (k : Nat) (o : Op) (ho : o = .Lock ∨ o = .TryLock) :
    calls (o :: List.replicate k .TryRLock) TRWMutex.zero
      = some (fastWrite o :: List.replicate k (some false, [.l68, .l69, .l71, .l72]),
          TRWMutex.written) ∧
    calls (o :: (List.replicate k .TryRLock ++ [.Unlock, .TryRLock])) TRWMutex.zero
      = some (fastWrite o :: (List.replicate k (some false, [.l68, .l69, .l71, .l72]) ++
          [(none, [.l45, .l46, .l47, .l48]),
           (some true, [.l68, .l69, .l74, .l76, .l77, .l78])]),
          TRWMutex.readOnce) ∧
    (∀ (n : Nat) (s : Sys) (t j : Nat) (b : Thr), Reach n s → s.thr[j]? = some b →
      b.holdsW = true → s.thr[t]? = some (.inside .l69) →
      (run callFuel .l69 s.m).result = some false) := by
  have hk := calls_failedTry (List.replicate k .TryRLock) (mem_replicate_TryRLock k)
  have hmap : (List.replicate k Op.TryRLock).map failedTry
      = List.replicate k (some false, [.l68, .l69, .l71, .l72]) := by
    rw [List.map_replicate]; rfl
  rw [hmap] at hk
  have htail : calls [.Unlock, .TryRLock] TRWMutex.written
      = some ([(none, [.l45, .l46, .l47, .l48]),
          (some true, [.l68, .l69, .l74, .l76, .l77, .l78])], TRWMutex.readOnce) := by
    decide
  refine ⟨?_, ?_, ?_⟩
  · rw [calls_acquire_then o ho, hk]; rfl
  · rw [calls_acquire_then o ho, calls_append, hk]
    simp only [htail, Option.map_some']
  · intro n s t j b hr hj hb ht
    exact (try_fails_while_written n s t j b hr hj hb).1 ht

theorem scenario_C_witness :
    calls (.TryLock :: List.replicate 2 .TryRLock) TRWMutex.zero
      = some (fastWrite .TryLock :: List.replicate 2 (some false, [.l68, .l69, .l71, .l72]),
          TRWMutex.written) ∧
    calls (.TryLock :: (List.replicate 2 .TryRLock ++ [.Unlock, .TryRLock])) TRWMutex.zero
      = some (fastWrite .TryLock :: (List.replicate 2 (some false, [.l68, .l69, .l71, .l72]) ++
          [(none, [.l45, .l46, .l47, .l48]),
           (some true, [.l68, .l69, .l74, .l76, .l77, .l78])]),
          TRWMutex.readOnce) ∧
    (∀ (n : Nat) (s : Sys) (t j : Nat) (b : Thr), Reach n s → s.thr[j]? = some b →
      b.holdsW = true → s.thr[t]? = some (.inside .l69) →
      (run callFuel .l69 s.m).result = some false) :=
  scenario_C 2 .TryLock (Or.inr rfl)
theorem calls_read_then (o : Op) (ho : o = .RLock ∨ o = .TryRLock) (os : List Op) :
    calls (o :: os) TRWMutex.zero =
      (calls os TRWMutex.readOnce).map fun p => (fastRead o :: p.1, p.2) := by
  rcases ho with rfl | rfl
  · have h1 : call .RLock TRWMutex.zero = .ret TRWMutex.readOnce none .read := by decide
    have h2 : callTrace .RLock TRWMutex.zero = [.l53, .l54, .l55, .l61, .l62] := by decide
    simp only [calls, h1, h2]
    rfl
  · have h1 : call .TryRLock TRWMutex.zero = .ret TRWMutex.readOnce (some true) .read := by
      decide
    have h2 : callTrace .TryRLock TRWMutex.zero = [.l68, .l69, .l74, .l76, .l77, .l78] := by
      decide
    simp only [calls, h1, h2]
    rfl

/-- C12 (scenario D generalised).  Starting from an idle lock, after one read
acquisition by `RLock()` or by `TryRLock()` (which returns true), a
`TryUpgrade()` by that sole reader returns true through lines 116-128 and
leaves `w = 1`, `r = 0` with the core held exclusively; every sequence of
`TryRLock()` and `TryLock()` calls that follows returns false throughout and
leaves the struct as it was; a final `Unlock()` returns the lock to idle.
Moreover, among any number of threads and in every reachable state, a
`TryRLock()` or a `TryLock()` at its check returns false whenever some thread
holds the write lock. -/
theorem scenario_D (o : Op) (ho : o = .RLock ∨ o = .TryRLock) (os : List Op)
    (hos : ∀ p ∈ os, p = .TryRLock ∨ p = .TryLock) :
    calls [o, .TryUpgrade] TRWMutex.zero
      = some ([fastRead o,
          (some true, [.l116, .l117, .l122, .l123, .l124, .l126, .l127, .l128])],
          TRWMutex.written) ∧
    calls (o :: .TryUpgrade :: os) TRWMutex.zero
      = some (fastRead o ::
          (some true, [.l116, .l117, .l122, .l123, .l124, .l126, .l127, .l128]) ::
          os.map failedTry, TRWMutex.written) ∧
    calls (o :: .TryUpgrade :: (os ++ [.Unlock])) TRWMutex.zero
      = some (fastRead o ::
          (some true, [.l116, .l117, .l122, .l123, .l124, .l126, .l127, .l128]) ::
          (os.map failedTry ++ [(none, [.l45, .l46, .l47, .l48])]), TRWMutex.zero) ∧
    (∀ (n : Nat) (s : Sys) (t j : Nat) (b : Thr), Reach n s → s.thr[j]? = some b →
      b.holdsW = true →
      (s.thr[t]? = some (.inside .l69) → (run callFuel .l69 s.m).result = some false) ∧
      (s.thr[t]? = some (.inside .l31) → (run callFuel .l31 s.m).result = some false)) := by
  have h1 : call .TryUpgrade TRWMutex.readOnce = .ret TRWMutex.written (some true) .write := by
    decide
  have h2 : callTrace .TryUpgrade TRWMutex.readOnce
      = [.l116, .l117, .l122, .l123, .l124, .l126, .l127, .l128] := by decide
  have hup : ∀ rest : List Op, calls (.TryUpgrade :: rest) TRWMutex.readOnce
      = (calls rest TRWMutex.written).map fun p =>
          ((some true, [.l116, .l117, .l122, .l123, .l124, .l126, .l127, .l128]) :: p.1, p.2) := by
    intro rest
    simp only [calls, h1, h2]
  have hk := calls_failedTry os hos
  have htail : calls [.Unlock] TRWMutex.written
      = some ([(none, [.l45, .l46, .l47, .l48])], TRWMutex.zero) := by decide
  refine ⟨?_, ?_, ?_, ?_⟩
  · rw [calls_read_then o ho, hup]; rfl
  · rw [calls_read_then o ho, hup, hk]; rfl
  · rw [calls_read_then o ho, hup, calls_append, hk]
    simp only [htail, Option.map_some']
  · intro n s t j b hr hj hb
    exact try_fails_while_written n s t j b hr hj hb

theorem scenario_D_witness :
    calls [.RLock, .TryUpgrade] TRWMutex.zero
      = some ([fastRead .RLock,
          (some true, [.l116, .l117, .l122, .l123, .l124, .l126, .l127, .l128])],
          TRWMutex.written) ∧
    calls (.RLock :: .TryUpgrade :: [.TryRLock, .TryLock, .TryRLock]) TRWMutex.zero
      = some (fastRead .RLock ::
          (some true, [.l116, .l117, .l122, .l123, .l124, .l126, .l127, .l128]) ::
          [Op.TryRLock, .TryLock, .TryRLock].map failedTry, TRWMutex.written) ∧
    calls (.RLock :: .TryUpgrade :: ([.TryRLock, .TryLock, .TryRLock] ++ [.Unlock]))
        TRWMutex.zero
      = some (fastRead .RLock ::
          (some true, [.l116, .l117, .l122, .l123, .l124, .l126, .l127, .l128]) ::
          ([Op.TryRLock, .TryLock, .TryRLock].map failedTry ++
            [(none, [.l45, .l46, .l47, .l48])]), TRWMutex.zero) ∧
    (∀ (n : Nat) (s : Sys) (t j : Nat) (b : Thr), Reach n s → s.thr[j]? = some b →
      b.holdsW = true →
      (s.thr[t]? = some (.inside .l69) → (run callFuel .l69 s.m).result = some false) ∧
      (s.thr[t]? = some (.inside .l31) → (run callFuel .l31 s.m).result = some false)) :=
  scenario_D .RLock (Or.inl rfl) [.TryRLock, .TryLock, .TryRLock]
    (by intro p hp; revert p; decide)
/-! ## The counters and the fast paths in every reachable state -/

theorem waitsW_in (a : Thr) (h : a.waitsW = true) : a.inW = true ∨ a.inMu = true := by
  cases a with
  | outside hd => cases h
  | inside l => revert h; cases l <;> decide

theorem waitsR_in (a : Thr) (h : a.waitsR = true) : a.inR = true ∨ a.inMu = true := by
  cases a with
  | outside hd => cases h
  | inside l => revert h; cases l <;> decide

theorem cnt_congr (p q : Thr → Bool) (thr : List Thr)
    (h : ∀ (t : Nat) (a : Thr), thr[t]? = some a → p a = q a) : cnt p thr = cnt q thr := by
  unfold cnt
  congr 1
  apply List.countP_congr
  intro a ha
  obtain ⟨n, hn⟩ := List.getElem?_of_mem ha
  rw [h n a hn]

theorem others_not_inW (s : Sys) (inv : Inv s) (t : Nat) (a : Thr) (ht : s.thr[t]? = some a)
    (ha : a.inW = true) (hw : s.m.w ≤ 1) (j : Nat) (b : Thr) (hj : s.thr[j]? = some b)
    (hne : j ≠ t) : b.inW = false := by
  cases hb : b.inW with
  | false => rfl
  | true =>
    exfalso
    have h2 := cnt_two Thr.inW s.thr j t b a rfl hne hj ht hb ha
    have h3 := inv.hw
    omega

theorem reach_stateFastLock : Reach 2 stateFastLock := ⟨schedFastLock, by decide⟩

theorem excl_fast (s : Sys) (inv : Inv s) (t : Nat) (l : Loc)
    (ht : s.thr[t]? = some (.inside l)) (hmu : l.inMu = true) (hinW : l.inW = true)
    (hnW : l.holdsW = false) (hnR : l.holdsR = false) (hg : s.m.r ≤ 0 ∧ s.m.w ≤ 1) :
    s.m.rwmu = ⟨false, 0⟩ ∧
    ∀ (j : Nat) (b : Thr), s.thr[j]? = some b → j ≠ t →
      b.holdsW = false ∧ b.holdsR = false ∧ b.waitsW = false ∧ b.waitsR = false := by
  have hR := cnt_nonneg Thr.inR s.thr
  have zR : cnt Thr.inR s.thr = 0 := by have := inv.hr; omega
  have hoth : ∀ (j : Nat) (b : Thr), s.thr[j]? = some b → j ≠ t →
      b.inW = false ∧ b.inR = false ∧ b.inMu = false := by
    intro j b hj hne
    refine ⟨others_not_inW s inv t _ ht hinW hg.2 j b hj hne,
      (cnt_eq_zero _ _).mp zR j b hj, ?_⟩
    cases hb : b.inMu with
    | false => rfl
    | true => exact absurd (guard_unique s inv j t b _ hj ht hb hmu) hne
  have hall : ∀ (j : Nat) (b : Thr), s.thr[j]? = some b → j ≠ t →
      b.holdsW = false ∧ b.holdsR = false ∧ b.waitsW = false ∧ b.waitsR = false := by
    intro j b hj hne
    obtain ⟨o1, o2, o3⟩ := hoth j b hj hne
    refine ⟨?_, ?_, ?_, ?_⟩
    · cases hb : b.holdsW with
      | false => rfl
      | true => rcases holdsW_inW b hb with k | k <;> simp [o1, o3] at k
    · cases hb : b.holdsR with
      | false => rfl
      | true => rcases holdsR_inR b hb with k | k <;> simp [o2, o3] at k
    · cases hb : b.waitsW with
      | false => rfl
      | true => rcases waitsW_in b hb with k | k <;> simp [o1, o3] at k
    · cases hb : b.waitsR with
      | false => rfl
      | true => rcases waitsR_in b hb with k | k <;> simp [o2, o3] at k
  have hholdW : ∀ (j : Nat) (b : Thr), s.thr[j]? = some b → b.holdsW = false := by
    intro j b hj
    by_cases hne : j = t
    · subst hne; rw [ht] at hj; cases hj; exact hnW
    · exact (hall j b hj hne).1
  have hholdR : ∀ (j : Nat) (b : Thr), s.thr[j]? = some b → b.holdsR = false := by
    intro j b hj
    by_cases hne : j = t
    · subst hne; rw [ht] at hj; cases hj; exact hnR
    · exact (hall j b hj hne).2.1
  have zW : cnt Thr.holdsW s.thr = 0 := (cnt_eq_zero _ _).mpr hholdW
  have zRd : cnt Thr.holdsR s.thr = 0 := (cnt_eq_zero _ _).mpr hholdR
  have hwr := inv.hwr
  have hrd := inv.hrd
  have hcore : s.m.rwmu = ⟨false, 0⟩ := by
    obtain ⟨⟨mu, ⟨wr, rd⟩, w, r⟩, thr⟩ := s
    simp only at hwr hrd zW zRd
    rw [zW] at hwr
    rw [zRd] at hrd
    cases wr
    · simp only [Nat.cast_eq_zero] at hrd; rw [hrd]
    · simp at hwr
  exact ⟨hcore, hall⟩

theorem shared_fast (s : Sys) (inv : Inv s) (t : Nat) (l : Loc)
    (ht : s.thr[t]? = some (.inside l)) (hmu : l.inMu = true) (hnW : l.holdsW = false)
    (hg : s.m.w ≤ 0) :
    s.m.rwmu.writer = false ∧
    ∀ (j : Nat) (b : Thr), s.thr[j]? = some b → j ≠ t →
      b.holdsW = false ∧ b.waitsW = false := by
  have hW := cnt_nonneg Thr.inW s.thr
  have zW : cnt Thr.inW s.thr = 0 := by have := inv.hw; omega
  refine ⟨no_writer s inv t _ ht hmu hnW zW, ?_⟩
  intro j b hj hne
  have o1 : b.inW = false := (cnt_eq_zero _ _).mp zW j b hj
  have o3 : b.inMu = false := by
    cases hb : b.inMu with
    | false => rfl
    | true => exact absurd (guard_unique s inv j t b _ hj ht hb hmu) hne
  constructor
  · cases hb : b.holdsW with
    | false => rfl
    | true => rcases holdsW_inW b hb with k | k <;> simp [o1, o3] at k
  · cases hb : b.waitsW with
    | false => rfl
    | true => rcases waitsW_in b hb with k | k <;> simp [o1, o3] at k

/-- C13 (fast-path non-blocking guarantee).  In every state reachable under
correct usage by any interleaving: when a thread is about to acquire the core
exclusively with the guard held in `Lock()` (line 23) or `TryLock()` (line 38),
the core has no holder of either mode, no other thread holds or is waiting for
the lock, and the acquisition completes at once; when a thread is about to
acquire the core in shared mode with the guard held in `RLock()` (line 61) or
`TryRLock()` (line 76), the core has no exclusive holder, no other thread
holds or is waiting for the write lock, and the acquisition completes at
once. -/
theorem fast_path_nonblocking (n : Nat) (s : Sys) (t : Nat) (l : Loc) (h : Reach n s)
    (ht : s.thr[t]? = some (.inside l)) :
    ((l = .l23 ∨ l = .l38) →
      s.m.rwmu = ⟨false, 0⟩ ∧
      (∀ (j : Nat) (b : Thr), s.thr[j]? = some b → j ≠ t →
        b.holdsW = false ∧ b.holdsR = false ∧ b.waitsW = false ∧ b.waitsR = false) ∧
      ∃ m1 l1, exec l s.m = .goto m1 l1) ∧
    ((l = .l61 ∨ l = .l76) →
      s.m.rwmu.writer = false ∧
      (∀ (j : Nat) (b : Thr), s.thr[j]? = some b → j ≠ t →
        b.holdsW = false ∧ b.waitsW = false) ∧
      ∃ m1 l1, exec l s.m = .goto m1 l1) := by
  have inv := inv_reach n s h
  have hfact := inv.hloc t l ht
  constructor
  · intro hl
    have hg : s.m.r ≤ 0 ∧ s.m.w ≤ 1 := by rcases hl with rfl | rfl <;> exact hfact
    obtain ⟨hcore, hall⟩ := excl_fast s inv t l ht
      (by rcases hl with rfl | rfl <;> rfl) (by rcases hl with rfl | rfl <;> rfl)
      (by rcases hl with rfl | rfl <;> rfl) (by rcases hl with rfl | rfl <;> rfl) hg
    refine ⟨hcore, hall, ?_⟩
    rcases hl with rfl | rfl
    · rw [exec_l23, hcore]; exact ⟨_, _, rfl⟩
    · rw [exec_l38, hcore]; exact ⟨_, _, rfl⟩
  · intro hl
    have hg : s.m.w ≤ 0 := by rcases hl with rfl | rfl <;> exact hfact
    obtain ⟨f1, hall⟩ := shared_fast s inv t l ht
      (by rcases hl with rfl | rfl <;> rfl) (by rcases hl with rfl | rfl <;> rfl) hg
    refine ⟨f1, hall, ?_⟩
    have hrw : s.m.rwmu.RLock = .ok ⟨false, s.m.rwmu.readers + 1⟩ := by
      simp [RWMutex.RLock, f1]
    rcases hl with rfl | rfl
    · rw [exec_l61, hrw]; exact ⟨_, _, rfl⟩
    · rw [exec_l76, hrw]; exact ⟨_, _, rfl⟩

theorem fast_path_nonblocking_witness :
    ((Loc.l23 = .l23 ∨ Loc.l23 = .l38) →
      stateFastLock.m.rwmu = ⟨false, 0⟩ ∧
      (∀ (j : Nat) (b : Thr), stateFastLock.thr[j]? = some b → j ≠ 0 →
        b.holdsW = false ∧ b.holdsR = false ∧ b.waitsW = false ∧ b.waitsR = false) ∧
      ∃ m1 l1, exec .l23 stateFastLock.m = .goto m1 l1) ∧
    ((Loc.l23 = .l61 ∨ Loc.l23 = .l76) →
      stateFastLock.m.rwmu.writer = false ∧
      (∀ (j : Nat) (b : Thr), stateFastLock.thr[j]? = some b → j ≠ 0 →
        b.holdsW = false ∧ b.waitsW = false) ∧
      ∃ m1 l1, exec .l23 stateFastLock.m = .goto m1 l1) :=
  fast_path_nonblocking 2 stateFastLock 0 .l23 reach_stateFastLock rfl
theorem reach_stateCounters : Reach 3 stateCounters := ⟨schedCounters, by decide⟩

theorem writeSide_eq (a : Thr) (h : a.inMu = false) : (a.holdsW || a.waitsW) = a.inW := by
  cases a with
  | outside hd => cases hd <;> rfl
  | inside l => revert h; cases l <;> decide

theorem readSide_eq (a : Thr) (h : a.inMu = false) : (a.holdsR || a.waitsR) = a.inR := by
  cases a with
  | outside hd => cases hd <;> rfl
  | inside l => revert h; cases l <;> decide

/-- C16 (counter meaning).  In every state reachable under correct usage by any
interleaving in which the guard is not held, `w` is the number of threads that
hold the write lock or are waiting for it (at the `rwmu.Lock()` of `Lock()` or
`Upgrade()`), and `r` is the number of threads that hold a read lock or are
waiting for one (at the `rwmu.RLock()` of `RLock()`).  A thread holds a lock
from its acquisition of the core to its release of it. -/
theorem counter_meaning (n : Nat) (s : Sys) (h : Reach n s) (hfree : s.m.mu.locked = false) :
    s.m.w = cnt (fun a => a.holdsW || a.waitsW) s.thr ∧
    s.m.r = cnt (fun a => a.holdsR || a.waitsR) s.thr := by
  have inv := inv_reach n s h
  have hmu := inv.hmu
  rw [hfree] at hmu
  have hno : ∀ (t : Nat) (a : Thr), s.thr[t]? = some a → a.inMu = false :=
    (cnt_eq_zero _ _).mp (by simpa using hmu)
  constructor
  · rw [inv.hw]
    exact (cnt_congr _ _ _ fun t a ht => writeSide_eq a (hno t a ht)).symm
  · rw [inv.hr]
    exact (cnt_congr _ _ _ fun t a ht => readSide_eq a (hno t a ht)).symm

theorem counter_meaning_witness :
    stateCounters.m.w = cnt (fun a => a.holdsW || a.waitsW) stateCounters.thr ∧
    stateCounters.m.r = cnt (fun a => a.holdsR || a.waitsR) stateCounters.thr :=
  counter_meaning 3 stateCounters reach_stateCounters rfl

/-- C17 (non-negative counters).  Starting from an idle lock, in every state
reached by any interleaving of calls that respects correct usage, at every
statement of every call, `w ≥ 0` and `r ≥ 0`. -/
theorem counters_nonneg (n : Nat) (s : Sys) (h : Reach n s) : 0 ≤ s.m.w ∧ 0 ≤ s.m.r := by
  have inv := inv_reach n s h
  have h1 := cnt_nonneg Thr.inW s.thr
  have h2 := cnt_nonneg Thr.inR s.thr
  have h3 := inv.hw
  have h4 := inv.hr
  constructor <;> omega

theorem counters_nonneg_witness : 0 ≤ stateCounters.m.w ∧ 0 ≤ stateCounters.m.r :=
  counters_nonneg 3 stateCounters reach_stateCounters
/-! ## Deadlocks -/

theorem reach_stateUpgradeTryUpgrade : Reach 2 stateUpgradeTryUpgrade :=
  ⟨schedUpgradeTryUpgrade, by decide⟩

theorem stuck_stateUpgradeTryUpgrade : stateUpgradeTryUpgrade.stuck := by
  intro a
  cases a with
  | call t o =>
    match t with
    | 0 => rfl
    | 1 => rfl
    | _ + 2 => rfl
  | run t =>
    match t with
    | 0 => rfl
    | 1 => rfl
    | _ + 2 => rfl

/-- C14: the code at the failing input.  Threads 0 and 1 hold a read lock each
and are the only readers; both call `Upgrade()`.  Thread 0 finds `r = 2` at its
test (line 95), thread 1 finds `w = 2`: both take the waiting branch (line 98),
release their shared hold and wait for the core on line 101 outside the guard.
There the core and the guard are free, the `rwmu.Lock()` of either thread
completes, and the schedule goes on: thread 0 returns from `Upgrade()` holding
the write lock, releases it with `Unlock()`, then thread 1 returns and
releases, and the lock is idle again.  No deadlock arises.  (Every step of the
schedule is one that Go's locks take too: the shared acquisitions are made
while no writer is registered, and each exclusive acquisition finds the core
free.) -/
theorem upgrade_pair_served :
    exec .l95 ⟨⟨true⟩, ⟨false, 2⟩, 1, 2⟩ = .goto ⟨⟨true⟩, ⟨false, 2⟩, 1, 2⟩ .l98 ∧
    exec .l95 ⟨⟨true⟩, ⟨false, 1⟩, 2, 1⟩ = .goto ⟨⟨true⟩, ⟨false, 1⟩, 2, 1⟩ .l98 ∧
    execs (Sys.init 2) schedUpgradePair = some stateUpgradePair ∧
    stateUpgradePair.thr = [.inside .l101, .inside .l101] ∧
    stateUpgradePair.m.mu.locked = false ∧ stateUpgradePair.m.rwmu = ⟨false, 0⟩ ∧
    step stateUpgradePair (.run 0)
      = some ⟨⟨⟨false⟩, ⟨true, 0⟩, 2, 0⟩, [.outside .write, .inside .l101]⟩ ∧
    step stateUpgradePair (.run 1)
      = some ⟨⟨⟨false⟩, ⟨true, 0⟩, 2, 0⟩, [.inside .l101, .outside .write]⟩ ∧
    ¬ stateUpgradePair.stuck ∧
    execs (Sys.init 2) schedUpgradePairDone = some (Sys.init 2) := by
  refine ⟨by decide, by decide, by decide, rfl, rfl, rfl, by decide, by decide, fun h => ?_,
    by decide⟩
  have h1 := h (.run 0)
  revert h1
  decide

theorem reach_stateTryUpgradeBlocked : Reach 2 stateTryUpgradeBlocked :=
  ⟨schedTryUpgradeBlocked, by decide⟩

/-- C15: the code at the failing input.  Two threads reach, under correct
usage, the state in which thread 0 is at the check of `TryUpgrade()` with
`r = 1` and `w = 1` (thread 1 is waiting inside `Lock()`), and the check is
passed.  Thread 0 then releases its shared hold; thread 1 obtains the core
before thread 0 does, and thread 0 is at its `rwmu.Lock()` on line 126 with the
guard held and has to wait.  Once thread 1 calls `Unlock()`, which needs the
guard, no thread can take a step.  The same happens when the waiting writer is
an `Upgrade()` of the only other reader. -/
theorem tryUpgrade_waits_with_guard :
    (Reach 2 stateTryUpgrade ∧ stateTryUpgrade.m.r ≤ 1 ∧ stateTryUpgrade.m.w ≤ 1 ∧
      exec .l117 stateTryUpgrade.m = .goto stateTryUpgrade.m .l122) ∧
    (Reach 2 stateTryUpgradeBlocked ∧
      stateTryUpgradeBlocked.thr[0]? = some (.inside .l126) ∧
      stateTryUpgradeBlocked.thr[1]? = some (.outside .write) ∧
      stateTryUpgradeBlocked.m.mu.locked = true ∧
      exec .l126 stateTryUpgradeBlocked.m = .wait) ∧
    (Reach 2 stateTryUpgradeStuck ∧ stateTryUpgradeStuck.stuck) ∧
    (Reach 2 stateUpgradeTryUpgrade ∧ stateUpgradeTryUpgrade.stuck) :=
  ⟨⟨reach_stateTryUpgrade, by decide, by decide, by decide⟩,
    ⟨reach_stateTryUpgradeBlocked, rfl, rfl, rfl, by decide⟩,
    ⟨reach_stateTryUpgradeStuck, stuck_stateTryUpgradeStuck⟩,
    ⟨reach_stateUpgradeTryUpgrade, stuck_stateUpgradeTryUpgrade⟩⟩
/-! ## Unmatched releases -/

/-- C18, as stated, fails.  On an idle lock an unmatched `Unlock()` does not
return: after `m.w--` (line 46) its `m.rwmu.Unlock()` (line 47) is a run-time
error of the core.  So there is no state left by that call in which a following
`TryLock()` returns true and a following `TryRLock()` passes its check. -/
theorem misuse_claim_fails :
    ¬ ∃ (m1 m2 : TRWMutex) (v : Option Bool) (h1 h2 : Hold),
        call .Unlock TRWMutex.zero = .ret m1 v h1 ∧ m1.w = -1 ∧
        call .TryLock m1 = .ret m2 (some true) h2 ∧ m2.w = 0 ∧ m2.rwmu.writer = true ∧
        exec .l69 ⟨⟨true⟩, m2.rwmu, m2.w, m2.r⟩ = .goto ⟨⟨true⟩, m2.rwmu, m2.w, m2.r⟩ .l74 := by
  rintro ⟨m1, m2, v, h1, h2, hu, _⟩
  have h : call .Unlock TRWMutex.zero = .fatal ⟨⟨true⟩, ⟨false, 0⟩, -1, 0⟩ .l47 := by decide
  rw [h] at hu
  cases hu

/-- C18, amended.  `Unlock()` and `RUnlock()` decrement their counter
unconditionally, before they release the core.  On an idle lock an unmatched
`Unlock()` executes lines 45 and 46 and sets `w` to -1, and an unmatched
`RUnlock()` executes lines 83 and 84 and sets `r` to -1.  The release of the
core that follows (line 47, line 85) is a run-time error of the core, raised
with the guard still held: the call does not return.  No later call is decided
on the negative counter: with the guard held, a call of any method does not
get past its first line. -/
theorem misuse_behaviour :
    call .Unlock TRWMutex.zero = .fatal ⟨⟨true⟩, ⟨false, 0⟩, -1, 0⟩ .l47 ∧
    callTrace .Unlock TRWMutex.zero = [.l45, .l46] ∧
    call .RUnlock TRWMutex.zero = .fatal ⟨⟨true⟩, ⟨false, 0⟩, 0, -1⟩ .l85 ∧
    callTrace .RUnlock TRWMutex.zero = [.l83, .l84] ∧
    (∀ o : Op, call o ⟨⟨true⟩, ⟨false, 0⟩, -1, 0⟩
      = .wait ⟨⟨true⟩, ⟨false, 0⟩, -1, 0⟩ o.entry) ∧
    (∀ o : Op, call o ⟨⟨true⟩, ⟨false, 0⟩, 0, -1⟩
      = .wait ⟨⟨true⟩, ⟨false, 0⟩, 0, -1⟩ o.entry) :=
  ⟨by decide, by decide, by decide, by decide,
    fun o => call_wait_of_locked o _ rfl, fun o => call_wait_of_locked o _ rfl⟩
/-! ## Calls with the counters as Go ints -/

theorem wrap64_of_range (x : Int) (h1 : minInt ≤ x) (h2 : x ≤ maxInt) : wrap64 x = x := by
  unfold wrap64
  unfold minInt at h1
  unfold maxInt at h2
  omega

theorem wrap64_wrap64 (x : Int) : wrap64 (wrap64 x) = wrap64 x := by
  unfold wrap64
  omega

theorem wrap64_range (x : Int) : minInt ≤ wrap64 x ∧ wrap64 x ≤ maxInt := by
  unfold wrap64 minInt maxInt
  omega

theorem wrap64_max : wrap64 (maxInt + 1) = minInt := by decide

theorem wrap_andThen {α : Type} (a : Acq α) (f : α → Res) :
    (a.andThen f).wrap = a.andThen fun x => (f x).wrap := by
  cases a <;> rfl

theorem call64_wait_of_locked (o : Op) (m : TRWMutex) (hmu : m.mu.locked = true) :
    call64 o m = .wait m o.entry := by
  obtain ⟨⟨mu⟩, rw, w, r⟩ := m
  simp only at hmu
  subst hmu
  cases o <;> rfl

theorem callTrace64_of_locked (o : Op) (m : TRWMutex) (hmu : m.mu.locked = true) :
    callTrace64 o m = [] := by
  obtain ⟨⟨mu⟩, rw, w, r⟩ := m
  simp only at hmu
  subst hmu
  cases o <;> rfl

theorem call64_TryLock (m : TRWMutex) (hmu : m.mu.locked = false) (hin : m.inRange) :
    call64 .TryLock m =
      if m.r > 0 ∨ m.w > 0 then .ret m (some false) .none
      else if m.rwmu.writer = false ∧ m.rwmu.readers = 0 then
        .ret ⟨⟨false⟩, ⟨true, 0⟩, m.w + 1, m.r⟩ (some true) .write
      else .wait ⟨⟨true⟩, m.rwmu, m.w + 1, m.r⟩ .l38 := by
  obtain ⟨⟨mu⟩, ⟨wr, rd⟩, w, r⟩ := m
  obtain ⟨h1, h2, h3, h4⟩ := hin
  simp only at hmu h1 h2 h3 h4
  subst hmu
  have hw : wrap64 w = w := wrap64_of_range w h1 h2
  have hr : wrap64 r = r := wrap64_of_range r h3 h4
  by_cases h : (r > 0 ∨ w > 0)
  · cases wr <;> rcases rd with _ | rd <;>
      simp [call64, Op.entry, callFuel, run64, exec64, exec_l30, exec_l31, exec_l33, exec_l34,
        exec_l36, exec_l38, exec_l39, exec_l40, wrap_andThen, Res.wrap, TRWMutex.wrap,
        Acq.andThen, Mutex.Lock, Mutex.Unlock, RWMutex.Lock, h, hw, hr, wrap64_wrap64]
  · have hw1 : wrap64 (w + 1) = w + 1 :=
      wrap64_of_range _ (by omega) (by unfold maxInt at h2 ⊢; omega)
    cases wr <;> rcases rd with _ | rd <;>
      simp [call64, Op.entry, callFuel, run64, exec64, exec_l30, exec_l31, exec_l33, exec_l34,
        exec_l36, exec_l38, exec_l39, exec_l40, wrap_andThen, Res.wrap, TRWMutex.wrap,
        Acq.andThen, Mutex.Lock, Mutex.Unlock, RWMutex.Lock, h, hw, hr, hw1, wrap64_wrap64]

theorem callTrace64_TryLock (m : TRWMutex) (hmu : m.mu.locked = false) (hin : m.inRange) :
    callTrace64 .TryLock m =
      if m.r > 0 ∨ m.w > 0 then [.l30, .l31, .l33, .l34]
      else if m.rwmu.writer = false ∧ m.rwmu.readers = 0 then
        [.l30, .l31, .l36, .l38, .l39, .l40]
      else [.l30, .l31, .l36] := by
  obtain ⟨⟨mu⟩, ⟨wr, rd⟩, w, r⟩ := m
  obtain ⟨h1, h2, h3, h4⟩ := hin
  simp only at hmu h1 h2 h3 h4
  subst hmu
  have hw : wrap64 w = w := wrap64_of_range w h1 h2
  have hr : wrap64 r = r := wrap64_of_range r h3 h4
  cases wr <;> rcases rd with _ | rd <;> by_cases h : (r > 0 ∨ w > 0) <;>
    simp [callTrace64, Op.entry, callFuel, trace64, exec64, exec_l30, exec_l31, exec_l33,
      exec_l34, exec_l36, exec_l38, exec_l39, exec_l40, wrap_andThen, Res.wrap, TRWMutex.wrap,
      Acq.andThen, Mutex.Lock, Mutex.Unlock, RWMutex.Lock, h, hw, hr, wrap64_wrap64]

theorem call64_Lock (m : TRWMutex) (hmu : m.mu.locked = false) (hin : m.inRange) :
    call64 .Lock m =
      if m.r > 0 ∨ wrap64 (m.w + 1) > 1 then
        if m.rwmu.writer = false ∧ m.rwmu.readers = 0 then
          .ret ⟨⟨false⟩, ⟨true, 0⟩, wrap64 (m.w + 1), m.r⟩ none .write
        else .wait ⟨⟨false⟩, m.rwmu, wrap64 (m.w + 1), m.r⟩ .l20
      else if m.rwmu.writer = false ∧ m.rwmu.readers = 0 then
        .ret ⟨⟨false⟩, ⟨true, 0⟩, wrap64 (m.w + 1), m.r⟩ none .write
      else .wait ⟨⟨true⟩, m.rwmu, wrap64 (m.w + 1), m.r⟩ .l23 := by
  obtain ⟨⟨mu⟩, ⟨wr, rd⟩, w, r⟩ := m
  obtain ⟨h1, h2, h3, h4⟩ := hin
  simp only at hmu h1 h2 h3 h4
  subst hmu
  have hw : wrap64 w = w := wrap64_of_range w h1 h2
  have hr : wrap64 r = r := wrap64_of_range r h3 h4
  cases wr <;> rcases rd with _ | rd <;> by_cases h : (r > 0 ∨ wrap64 (w + 1) > 1) <;>
    simp [call64, Op.entry, callFuel, run64, exec64, exec_l15, exec_l16, exec_l17, exec_l19,
      exec_l20, exec_l23, exec_l24, wrap_andThen, Res.wrap, TRWMutex.wrap, Acq.andThen,
      Mutex.Lock, Mutex.Unlock, RWMutex.Lock, h, hw, hr, wrap64_wrap64]

theorem callTrace64_Lock (m : TRWMutex) (hmu : m.mu.locked = false) (hin : m.inRange) :
    callTrace64 .Lock m =
      if m.r > 0 ∨ wrap64 (m.w + 1) > 1 then
        if m.rwmu.writer = false ∧ m.rwmu.readers = 0 then [.l15, .l16, .l17, .l19, .l20]
        else [.l15, .l16, .l17, .l19]
      else if m.rwmu.writer = false ∧ m.rwmu.readers = 0 then [.l15, .l16, .l17, .l23, .l24]
      else [.l15, .l16, .l17] := by
  obtain ⟨⟨mu⟩, ⟨wr, rd⟩, w, r⟩ := m
  obtain ⟨h1, h2, h3, h4⟩ := hin
  simp only at hmu h1 h2 h3 h4
  subst hmu
  have hw : wrap64 w = w := wrap64_of_range w h1 h2
  have hr : wrap64 r = r := wrap64_of_range r h3 h4
  cases wr <;> rcases rd with _ | rd <;> by_cases h : (r > 0 ∨ wrap64 (w + 1) > 1) <;>
    simp [callTrace64, Op.entry, callFuel, trace64, exec64, exec_l15, exec_l16, exec_l17,
      exec_l19, exec_l20, exec_l23, exec_l24, wrap_andThen, Res.wrap, TRWMutex.wrap,
      Acq.andThen, Mutex.Lock, Mutex.Unlock, RWMutex.Lock, h, hw, hr, wrap64_wrap64]

theorem call64_TryRLock (m : TRWMutex) (hmu : m.mu.locked = false) (hin : m.inRange) :
    call64 .TryRLock m =
      if m.w > 0 then .ret m (some false) .none
      else if m.rwmu.writer = false then
        .ret ⟨⟨false⟩, ⟨false, m.rwmu.readers + 1⟩, m.w, wrap64 (m.r + 1)⟩ (some true) .read
      else .wait ⟨⟨true⟩, m.rwmu, m.w, wrap64 (m.r + 1)⟩ .l76 := by
  obtain ⟨⟨mu⟩, ⟨wr, rd⟩, w, r⟩ := m
  obtain ⟨h1, h2, h3, h4⟩ := hin
  simp only at hmu h1 h2 h3 h4
  subst hmu
  have hw : wrap64 w = w := wrap64_of_range w h1 h2
  have hr : wrap64 r = r := wrap64_of_range r h3 h4
  cases wr <;> by_cases h : w > 0 <;>
    simp [call64, Op.entry, callFuel, run64, exec64, exec_l68, exec_l69, exec_l71, exec_l72,
      exec_l74, exec_l76, exec_l77, exec_l78, wrap_andThen, Res.wrap, TRWMutex.wrap,
      Acq.andThen, Mutex.Lock, Mutex.Unlock, RWMutex.RLock, h, hw, hr, wrap64_wrap64]

theorem callTrace64_TryRLock (m : TRWMutex) (hmu : m.mu.locked = false) (hin : m.inRange) :
    callTrace64 .TryRLock m =
      if m.w > 0 then [.l68, .l69, .l71, .l72]
      else if m.rwmu.writer = false then [.l68, .l69, .l74, .l76, .l77, .l78]
      else [.l68, .l69, .l74] := by
  obtain ⟨⟨mu⟩, ⟨wr, rd⟩, w, r⟩ := m
  obtain ⟨h1, h2, h3, h4⟩ := hin
  simp only at hmu h1 h2 h3 h4
  subst hmu
  have hw : wrap64 w = w := wrap64_of_range w h1 h2
  have hr : wrap64 r = r := wrap64_of_range r h3 h4
  cases wr <;> by_cases h : w > 0 <;>
    simp [callTrace64, Op.entry, callFuel, trace64, exec64, exec_l68, exec_l69, exec_l71,
      exec_l72, exec_l74, exec_l76, exec_l77, exec_l78, wrap_andThen, Res.wrap, TRWMutex.wrap,
      Acq.andThen, Mutex.Lock, Mutex.Unlock, RWMutex.RLock, h, hw, hr, wrap64_wrap64]

theorem call64_RLock (m : TRWMutex) (hmu : m.mu.locked = false) (hin : m.inRange) :
    call64 .RLock m =
      if m.w > 0 then
        if m.rwmu.writer = false then
          .ret ⟨⟨false⟩, ⟨false, m.rwmu.readers + 1⟩, m.w, wrap64 (m.r + 1)⟩ none .read
        else .wait ⟨⟨false⟩, m.rwmu, m.w, wrap64 (m.r + 1)⟩ .l58
      else if m.rwmu.writer = false then
        .ret ⟨⟨false⟩, ⟨false, m.rwmu.readers + 1⟩, m.w, wrap64 (m.r + 1)⟩ none .read
      else .wait ⟨⟨true⟩, m.rwmu, m.w, wrap64 (m.r + 1)⟩ .l61 := by
  obtain ⟨⟨mu⟩, ⟨wr, rd⟩, w, r⟩ := m
  obtain ⟨h1, h2, h3, h4⟩ := hin
  simp only at hmu h1 h2 h3 h4
  subst hmu
  have hw : wrap64 w = w := wrap64_of_range w h1 h2
  have hr : wrap64 r = r := wrap64_of_range r h3 h4
  cases wr <;> by_cases h : w > 0 <;>
    simp [call64, Op.entry, callFuel, run64, exec64, exec_l53, exec_l54, exec_l55, exec_l57,
      exec_l58, exec_l61, exec_l62, wrap_andThen, Res.wrap, TRWMutex.wrap, Acq.andThen,
      Mutex.Lock, Mutex.Unlock, RWMutex.RLock, h, hw, hr, wrap64_wrap64]

theorem callTrace64_RLock (m : TRWMutex) (hmu : m.mu.locked = false) (hin : m.inRange) :
    callTrace64 .RLock m =
      if m.w > 0 then
        if m.rwmu.writer = false then [.l53, .l54, .l55, .l57, .l58]
        else [.l53, .l54, .l55, .l57]
      else if m.rwmu.writer = false then [.l53, .l54, .l55, .l61, .l62]
      else [.l53, .l54, .l55] := by
  obtain ⟨⟨mu⟩, ⟨wr, rd⟩, w, r⟩ := m
  obtain ⟨h1, h2, h3, h4⟩ := hin
  simp only at hmu h1 h2 h3 h4
  subst hmu
  have hw : wrap64 w = w := wrap64_of_range w h1 h2
  have hr : wrap64 r = r := wrap64_of_range r h3 h4
  cases wr <;> by_cases h : w > 0 <;>
    simp [callTrace64, Op.entry, callFuel, trace64, exec64, exec_l53, exec_l54, exec_l55,
      exec_l57, exec_l58, exec_l61, exec_l62, wrap_andThen, Res.wrap, TRWMutex.wrap,
      Acq.andThen, Mutex.Lock, Mutex.Unlock, RWMutex.RLock, h, hw, hr, wrap64_wrap64]

theorem calls64_reads (ops : List Op) (m : TRWMutex)
    (hops : ∀ o ∈ ops, o = .RLock ∨ o = .TryRLock) (hmu : m.mu.locked = false)
    (hw : m.w = 0) (hwr : m.rwmu.writer = false) (hlo : minInt ≤ m.r)
    (hhi : m.r + ops.length ≤ maxInt) :
    calls64 ops m = some (ops.map fastRead,
      ⟨⟨false⟩, ⟨false, m.rwmu.readers + ops.length⟩, 0, m.r + ops.length⟩) := by
  induction ops generalizing m with
  | nil =>
    obtain ⟨⟨mu⟩, ⟨wr, rd⟩, w, r⟩ := m
    simp only at hmu hw hwr
    subst hmu hw hwr
    simp [calls64]
  | cons o os ih =>
    have hos : ∀ o ∈ os, o = .RLock ∨ o = .TryRLock :=
      fun o ho => hops o (List.mem_cons_of_mem _ ho)
    have hlen : (((o :: os).length : Nat) : Int) = (os.length : Int) + 1 := by
      simp only [List.length_cons]; push_cast; rfl
    rw [hlen] at hhi
    have hnw : ¬ m.w > 0 := by omega
    have hin : m.inRange := by
      refine ⟨?_, ?_, hlo, ?_⟩
      · rw [hw]; decide
      · rw [hw]; decide
      · omega
    have hr1 : wrap64 (m.r + 1) = m.r + 1 := wrap64_of_range _ (by omega) (by omega)
    have ih1 := ih ⟨⟨false⟩, ⟨false, m.rwmu.readers + 1⟩, m.w, m.r + 1⟩ hos rfl hw rfl
      (by simp only; omega) (by simp only; omega)
    rcases hops o (List.mem_cons_self _ _) with rfl | rfl
    · simp only [calls64]
      rw [call64_RLock m hmu hin, if_neg hnw, if_pos hwr, hr1]
      simp only []
      rw [ih1, callTrace64_RLock m hmu hin, if_neg hnw, if_pos hwr]
      simp only [Option.map_some', List.map_cons, List.length_cons, fastRead, if_true]
      congr 3
      · congr 1; omega
      · push_cast; omega
    · simp only [calls64]
      rw [call64_TryRLock m hmu hin, if_neg hnw, if_pos hwr, hr1]
      simp only []
      rw [ih1, callTrace64_TryRLock m hmu hin, if_neg hnw, if_pos hwr]
      simp only [Option.map_some', List.map_cons, List.length_cons, fastRead]
      congr 3
      · congr 1; omega
      · push_cast; omega

theorem calls64_RLocks (k : Nat) (hk : (k : Int) ≤ maxInt) :
    calls64 (List.replicate k .RLock) TRWMutex.zero
      = some (List.replicate k (fastRead .RLock), ⟨⟨false⟩, ⟨false, k⟩, 0, k⟩) := by
  have h := calls64_reads (List.replicate k .RLock) TRWMutex.zero
    (fun o ho => Or.inl (List.eq_of_mem_replicate ho)) rfl rfl rfl (by decide)
    (by rw [List.length_replicate]; simpa [TRWMutex.zero] using hk)
  rw [h, List.map_replicate, List.length_replicate]
  simp [TRWMutex.zero]

/-- C9, as stated, fails.  From the idle lock, `2^63 - 1` consecutive
`RLock()` calls leave `w = 0` and `r` at the largest value of an `int`.  The
next `RLock()` still takes the branch that acquires the core under the guard,
but its `m.r++` (line 54) wraps around: `r` becomes `-2^63`, it has not grown
by 1. -/
theorem shared_reads_wrap :
    (∃ res : List (Option Bool × List Loc),
      calls64 (List.replicate 9223372036854775807 .RLock) TRWMutex.zero
        = some (res, ⟨⟨false⟩, ⟨false, 9223372036854775807⟩, 0, maxInt⟩)) ∧
    calls64 [.RLock] ⟨⟨false⟩, ⟨false, 9223372036854775807⟩, 0, maxInt⟩
      = some ([fastRead .RLock], ⟨⟨false⟩, ⟨false, 9223372036854775808⟩, 0, minInt⟩) ∧
    ¬ (∀ (ops : List Op) (m : TRWMutex), (∀ o ∈ ops, o = .RLock ∨ o = .TryRLock) →
        m.inRange → m.mu.locked = false → m.w = 0 → m.rwmu.writer = false →
        ∃ (res : List (Option Bool × List Loc)) (m1 : TRWMutex),
          calls64 ops m = some (res, m1) ∧ m1.r = m.r + ops.length) := by
  have h2 : calls64 [.RLock] ⟨⟨false⟩, ⟨false, 9223372036854775807⟩, 0, maxInt⟩
      = some ([fastRead .RLock], ⟨⟨false⟩, ⟨false, 9223372036854775808⟩, 0, minInt⟩) := by
    decide
  refine ⟨⟨_, calls64_RLocks 9223372036854775807 (by decide)⟩, h2, fun h => ?_⟩
  obtain ⟨res, m1, h3, h4⟩ := h [.RLock] ⟨⟨false⟩, ⟨false, 9223372036854775807⟩, 0, maxInt⟩
    (by intro o ho; revert o; decide) (by unfold TRWMutex.inRange; decide) rfl rfl rfl
  rw [h2] at h3
  cases h3
  revert h4
  decide

/-- C9, amended (shared-read concurrency).  For every `n` and every sequence of
`n` calls each of which is `RLock()` or `TryRLock()`, started in a state with
the guard free, `w = 0`, the core not held exclusively and `r + n` not above
the largest value of an `int`: every call returns; every `RLock()` executes
lines 53, 54, 55, 61, 62 (the branch that acquires the core in shared mode
under the guard), every `TryRLock()` returns true; and in the final state `r`
has grown by exactly `n`, `w` is still 0, and the core has `n` more shared
holds and no exclusive one. -/
theorem shared_reads_in_range (ops : List Op) (m : TRWMutex)
    (hops : ∀ o ∈ ops, o = .RLock ∨ o = .TryRLock) (hmu : m.mu.locked = false)
    (hw : m.w = 0) (hwr : m.rwmu.writer = false) (hlo : minInt ≤ m.r)
    (hhi : m.r + ops.length ≤ maxInt) :
    calls64 ops m = some (ops.map fastRead,
      ⟨⟨false⟩, ⟨false, m.rwmu.readers + ops.length⟩, 0, m.r + ops.length⟩) :=
  calls64_reads ops m hops hmu hw hwr hlo hhi

theorem shared_reads_in_range_witness :
    calls64 [.RLock, .TryRLock, .RLock] TRWMutex.zero
      = some ([.RLock, .TryRLock, .RLock].map fastRead,
          ⟨⟨false⟩, ⟨false, TRWMutex.zero.rwmu.readers + [Op.RLock, .TryRLock, .RLock].length⟩,
            0, TRWMutex.zero.r + ([Op.RLock, .TryRLock, .RLock].length : Nat)⟩) :=
  shared_reads_in_range [.RLock, .TryRLock, .RLock] TRWMutex.zero
    (by intro o ho; revert o; decide) rfl rfl rfl (by decide) (by decide)
/-! ## A reachable state with `w` at the largest value of an int -/

theorem execs64_append (as bs : List Act) (s : Sys) :
    execs64 s (as ++ bs) = (execs64 s as).bind fun s1 => execs64 s1 bs := by
  induction as generalizing s with
  | nil => rfl
  | cons a as ih =>
    simp only [List.cons_append, execs64]
    cases step64 s a with
    | none => rfl
    | some s2 => exact ih s2

theorem reach64_execs (n : Nat) (s s1 : Sys) (as : List Act) (h : Reach64 n s)
    (hs : execs64 s as = some s1) : Reach64 n s1 := by
  obtain ⟨bs, hbs⟩ := h
  exact ⟨bs ++ as, by rw [execs64_append, hbs]; exact hs⟩

theorem set_same (l : List Thr) (t : Nat) (a : Thr) (h : l[t]? = some a) : l.set t a = l := by
  induction l generalizing t with
  | nil => rfl
  | cons x xs ih =>
    cases t with
    | zero =>
      simp only [List.getElem?_cons_zero, Option.some.injEq] at h
      subst h
      rfl
    | succ t =>
      simp only [List.getElem?_cons_succ] at h
      simp only [List.set_cons_succ, ih t h]

theorem run_steps64 (k : Nat) (s : Sys) (t : Nat) (a : Thr) (ht : s.thr[t]? = some a)
    (m1 : TRWMutex) (a1 : Thr) (h : steps64 k a s.m = some (m1, a1)) :
    execs64 s (List.replicate k (.run t)) = some ⟨m1, s.thr.set t a1⟩ := by
  induction k generalizing s a with
  | zero =>
    simp only [steps64, Option.some.injEq, Prod.mk.injEq] at h
    obtain ⟨rfl, rfl⟩ := h
    simp only [List.replicate, execs64]
    rw [set_same s.thr t a ht]
  | succ k ih =>
    obtain ⟨hlt, _⟩ := List.getElem?_eq_some.mp ht
    cases a with
    | outside hd => simp only [steps64] at h; cases h
    | inside l =>
      simp only [steps64] at h
      simp only [List.replicate, execs64, step64, ht]
      cases he : exec64 l s.m with
      | goto m2 l2 =>
        rw [he] at h
        simp only at h
        have := ih ⟨m2, s.thr.set t (.inside l2)⟩ (.inside l2)
          (by simp only [List.getElem?_set_self hlt]) h
        simp only [List.set_set] at this
        exact this
      | ret m2 v hd =>
        rw [he] at h
        simp only at h
        have := ih ⟨m2, s.thr.set t (.outside hd)⟩ (.outside hd)
          (by simp only [List.getElem?_set_self hlt]) h
        simp only [List.set_set] at this
        exact this
      | wait => rw [he] at h; cases h
      | fatal => rw [he] at h; cases h

theorem call_steps64 (k : Nat) (s : Sys) (t : Nat) (hd : Hold) (o : Op)
    (ht : s.thr[t]? = some (.outside hd)) (ha : allowed hd o = true)
    (m1 : TRWMutex) (a1 : Thr) (h : steps64 k (.inside o.entry) s.m = some (m1, a1)) :
    execs64 s (callRun t o k) = some ⟨m1, s.thr.set t a1⟩ := by
  obtain ⟨hlt, _⟩ := List.getElem?_eq_some.mp ht
  simp only [callRun, execs64, step64, ht, ha, if_true]
  have := run_steps64 k ⟨s.m, s.thr.set t (.inside o.entry)⟩ t (.inside o.entry)
    (by simp only [List.getElem?_set_self hlt]) m1 a1 h
  simp only [List.set_set] at this
  exact this

theorem steps64_goto (k : Nat) (l l1 : Loc) (m m1 : TRWMutex) (h : exec64 l m = .goto m1 l1) :
    steps64 (k + 1) (.inside l) m = steps64 k (.inside l1) m1 := by
  simp only [steps64, h]

theorem steps64_ret (k : Nat) (l : Loc) (m m1 : TRWMutex) (v : Option Bool) (hd : Hold)
    (h : exec64 l m = .ret m1 v hd) :
    steps64 (k + 1) (.inside l) m = steps64 k (.outside hd) m1 := by
  simp only [steps64, h]

theorem steps64_park (k : Nat) (hk : (k : Int) + 1 ≤ maxInt) :
    steps64 4 (.inside .l15) ⟨⟨false⟩, ⟨false, 1⟩, k, 1⟩
      = some (⟨⟨false⟩, ⟨false, 1⟩, (k + 1 : Nat), 1⟩, .inside .l20) := by
  have h0 : (0 : Int) ≤ k := Int.ofNat_nonneg k
  have hw : wrap64 (k : Int) = k :=
    wrap64_of_range _ (by unfold minInt; omega) (by omega)
  have hw1 : wrap64 ((k : Int) + 1) = k + 1 :=
    wrap64_of_range _ (by unfold minInt; omega) hk
  have hr : wrap64 1 = 1 := by decide
  have e1 : exec64 .l15 ⟨⟨false⟩, ⟨false, 1⟩, k, 1⟩
      = .goto ⟨⟨true⟩, ⟨false, 1⟩, k, 1⟩ .l16 := by
    simp [exec64, exec_l15, wrap_andThen, Res.wrap, TRWMutex.wrap, Acq.andThen, Mutex.Lock,
      hw, hr]
  have e2 : exec64 .l16 ⟨⟨true⟩, ⟨false, 1⟩, k, 1⟩
      = .goto ⟨⟨true⟩, ⟨false, 1⟩, (k : Int) + 1, 1⟩ .l17 := by
    simp [exec64, exec_l16, Res.wrap, TRWMutex.wrap, hw1, hr]
  have e3 : exec64 .l17 ⟨⟨true⟩, ⟨false, 1⟩, (k : Int) + 1, 1⟩
      = .goto ⟨⟨true⟩, ⟨false, 1⟩, (k : Int) + 1, 1⟩ .l19 := by
    simp [exec64, exec_l17, Res.wrap, TRWMutex.wrap, hw1, hr]
  have e4 : exec64 .l19 ⟨⟨true⟩, ⟨false, 1⟩, (k : Int) + 1, 1⟩
      = .goto ⟨⟨false⟩, ⟨false, 1⟩, (k : Int) + 1, 1⟩ .l20 := by
    simp [exec64, exec_l19, wrap_andThen, Res.wrap, TRWMutex.wrap, Acq.andThen, Mutex.Unlock,
      hw1, hr]
  rw [steps64_goto 3 _ _ _ _ e1, steps64_goto 2 _ _ _ _ e2, steps64_goto 1 _ _ _ _ e3,
    steps64_goto 0 _ _ _ _ e4]
  simp only [steps64]
  push_cast
  rfl

theorem parked_get (k j : Nat) (x a b : Thr) :
    (x :: (List.replicate k a ++ List.replicate (j + 1) b))[k + 1]? = some b := by
  rw [List.getElem?_cons_succ, List.getElem?_append_right (by simp)]
  simp [List.getElem?_replicate]

theorem replicate_set (k : Nat) (a b : Thr) (ys : List Thr) :
    (List.replicate k a ++ b :: ys).set k a = List.replicate (k + 1) a ++ ys := by
  induction k with
  | zero => rfl
  | succ k ih =>
    rw [List.replicate_succ, List.cons_append, List.set_cons_succ, ih]
    rfl

theorem parked_set (k j : Nat) (x a b : Thr) :
    (x :: (List.replicate k a ++ List.replicate (j + 1) b)).set (k + 1) a
      = x :: (List.replicate (k + 1) a ++ List.replicate j b) := by
  rw [List.set_cons_succ]
  congr 1
  exact replicate_set k a b (List.replicate j b)

theorem steps64_RLock_idle :
    steps64 5 (.inside .l53) TRWMutex.zero
      = some (⟨⟨false⟩, ⟨false, 1⟩, 0, 1⟩, .outside .read) := by
  decide

theorem reach64_parked (M k : Nat) (hM : (M : Int) ≤ maxInt) (hk : k ≤ M) :
    Reach64 (M + 1) (stateParked k (M - k)) := by
  induction k with
  | zero =>
    refine ⟨callRun 0 .RLock 5, ?_⟩
    have h := call_steps64 5 (Sys.init (M + 1)) 0 .none .RLock
      (by simp only [Sys.init, List.replicate_succ, List.getElem?_cons_zero]) rfl
      _ _ steps64_RLock_idle
    rw [h]
    simp only [Sys.init, stateParked, List.replicate_succ, List.set_cons_zero,
      List.replicate_zero, List.nil_append, Nat.sub_zero, Nat.cast_zero]
  | succ k ih =>
    have hprev := ih (by omega)
    have hj : M - k = (M - (k + 1)) + 1 := by omega
    rw [hj] at hprev
    refine reach64_execs _ _ _ (callRun (k + 1) .Lock 4) hprev ?_
    have h := call_steps64 4 (stateParked k (M - (k + 1) + 1)) (k + 1) .none .Lock
      (parked_get k _ _ _ _) rfl _ _ (steps64_park k (by omega))
    rw [h]
    simp only [stateParked, parked_set]

theorem steps64_release (M : Nat) (hM : (M : Int) ≤ maxInt) :
    steps64 4 (.inside .l83) ⟨⟨false⟩, ⟨false, 1⟩, M, 1⟩
      = some (⟨⟨false⟩, ⟨false, 0⟩, M, 0⟩, .outside .none) := by
  have h0 : (0 : Int) ≤ M := Int.ofNat_nonneg M
  have hw : wrap64 (M : Int) = M :=
    wrap64_of_range _ (by unfold minInt; omega) hM
  have hr : wrap64 1 = 1 := by decide
  have hr0 : wrap64 0 = 0 := by decide
  have e1 : exec64 .l83 ⟨⟨false⟩, ⟨false, 1⟩, M, 1⟩
      = .goto ⟨⟨true⟩, ⟨false, 1⟩, M, 1⟩ .l84 := by
    simp [exec64, exec_l83, wrap_andThen, Res.wrap, TRWMutex.wrap, Acq.andThen, Mutex.Lock,
      hw, hr]
  have e2 : exec64 .l84 ⟨⟨true⟩, ⟨false, 1⟩, M, 1⟩
      = .goto ⟨⟨true⟩, ⟨false, 1⟩, M, 0⟩ .l85 := by
    simp [exec64, exec_l84, Res.wrap, TRWMutex.wrap, hw, hr0]
  have e3 : exec64 .l85 ⟨⟨true⟩, ⟨false, 1⟩, M, 0⟩
      = .goto ⟨⟨true⟩, ⟨false, 0⟩, M, 0⟩ .l86 := by
    simp [exec64, exec_l85, wrap_andThen, Res.wrap, TRWMutex.wrap, Acq.andThen,
      RWMutex.RUnlock, hw, hr0]
  have e4 : exec64 .l86 ⟨⟨true⟩, ⟨false, 0⟩, M, 0⟩
      = .ret ⟨⟨false⟩, ⟨false, 0⟩, M, 0⟩ none .none := by
    simp [exec64, exec_l86, wrap_andThen, Res.wrap, TRWMutex.wrap, Acq.andThen, Mutex.Unlock,
      hw, hr0]
  rw [steps64_goto 3 _ _ _ _ e1, steps64_goto 2 _ _ _ _ e2, steps64_goto 1 _ _ _ _ e3,
    steps64_ret 0 _ _ _ _ _ e4]
  rfl

theorem reach64_released (M : Nat) (hM : (M : Int) ≤ maxInt) :
    Reach64 (M + 1)
      ⟨⟨⟨false⟩, ⟨false, 0⟩, M, 0⟩, .outside .none :: List.replicate M (.inside .l20)⟩ := by
  have h := reach64_parked M M hM (le_refl _)
  refine reach64_execs _ _ _ (callRun 0 .RUnlock 4) h ?_
  have h2 := call_steps64 4 (stateParked M (M - M)) 0 .read .RUnlock
    (by simp only [stateParked, List.getElem?_cons_zero]) rfl _ _ (steps64_release M hM)
  rw [h2]
  simp only [stateParked, Nat.sub_self, List.replicate_zero, List.append_nil, List.set_cons_zero]

/-- The state `stateFullW` is reached under correct usage, with Go's 64-bit
arithmetic, by `2^63` threads: thread 0 takes a read lock, every other thread
calls `Lock()` and comes to wait on line 20, thread 0 releases. -/
theorem reach64_stateFullW : Reach64 9223372036854775808 stateFullW :=
  reach64_released 9223372036854775807 (by decide)

/-- C19, as stated, fails.  In the state with the guard and the core free,
`r = 0` and `w` at the largest value of an `int`, `Lock()` wraps `w` around on
line 16, finds `w ≤ 1` on line 17, takes its non-waiting branch and acquires
the core on line 23, while `TryLock()` finds `w > 0` on line 31 and returns
false.  The state is one the lock can be in under correct usage: a reader has
released while `2^63 - 1` threads wait inside `Lock()`. -/
theorem try_disagrees_at_max :
    Reach64 9223372036854775808 stateFullW ∧ stateFullW.m = TRWMutex.fullW ∧
    TRWMutex.fullW.inRange ∧
    call64 .TryLock TRWMutex.fullW = .ret TRWMutex.fullW (some false) .none ∧
    callTrace64 .TryLock TRWMutex.fullW = [.l30, .l31, .l33, .l34] ∧
    call64 .Lock TRWMutex.fullW = .ret ⟨⟨false⟩, ⟨true, 0⟩, minInt, 0⟩ none .write ∧
    callTrace64 .Lock TRWMutex.fullW = [.l15, .l16, .l17, .l23, .l24] ∧
    ¬ (∀ m : TRWMutex, m.inRange →
        ((call64 .TryLock m).result = some true ↔ Loc.l23 ∈ callTrace64 .Lock m)) := by
  refine ⟨reach64_stateFullW, rfl, by unfold TRWMutex.inRange; decide, by decide, by decide,
    by decide, by decide, fun h => ?_⟩
  have h1 := (h TRWMutex.fullW (by unfold TRWMutex.inRange; decide)).mpr (by decide)
  revert h1
  decide

/-- C19, amended (the try variants agree with the fast paths).  For every state
of the struct in which `w` is below the largest value of an `int`, so that the
`m.w++` of `Lock()` on line 16 does not wrap around: `TryLock()` returns true
exactly when `Lock()`, called in the same state, acquires the core on its
non-waiting branch (line 23, under the guard), and then both calls leave the
same struct and the caller holds the write lock; and with the guard free
`TryLock()` passes its check (reaches line 36) exactly when `Lock()` does not
take its waiting branch (line 19).  For every state of the struct, `TryRLock()`
returns true exactly when `RLock()` acquires the core on its non-waiting branch
(line 61), with the same resulting struct; and with the guard free `TryRLock()`
passes its check (reaches line 74) exactly when `RLock()` does not take its
waiting branch (line 57). -/
theorem try_agrees_below_max (m : TRWMutex) (hin : m.inRange) :
    (m.w < maxInt →
      ((call64 .TryLock m).result = some true ↔ Loc.l23 ∈ callTrace64 .Lock m) ∧
      (∀ (m1 : TRWMutex) (h : Hold), call64 .TryLock m = .ret m1 (some true) h →
        call64 .Lock m = .ret m1 none h) ∧
      (m.mu.locked = false →
        (Loc.l36 ∈ callTrace64 .TryLock m ↔ Loc.l19 ∉ callTrace64 .Lock m))) ∧
    ((call64 .TryRLock m).result = some true ↔ Loc.l61 ∈ callTrace64 .RLock m) ∧
    (∀ (m1 : TRWMutex) (h : Hold), call64 .TryRLock m = .ret m1 (some true) h →
      call64 .RLock m = .ret m1 none h) ∧
    (m.mu.locked = false →
      (Loc.l74 ∈ callTrace64 .TryRLock m ↔ Loc.l57 ∉ callTrace64 .RLock m)) := by
  cases hmu : m.mu.locked with
  | true =>
    rw [call64_wait_of_locked .TryLock m hmu, call64_wait_of_locked .Lock m hmu,
      call64_wait_of_locked .TryRLock m hmu, call64_wait_of_locked .RLock m hmu,
      callTrace64_of_locked .Lock m hmu, callTrace64_of_locked .RLock m hmu]
    refine ⟨fun _ => ⟨⟨fun h => (by cases h), fun h => (by cases h)⟩, fun _ _ h => (by cases h),
      fun h => (by cases h)⟩, ⟨fun h => (by cases h), fun h => (by cases h)⟩,
      fun _ _ h => (by cases h), fun h => (by cases h)⟩
  | false =>
    rw [call64_TryLock m hmu hin, call64_TryRLock m hmu hin, call64_Lock m hmu hin,
      call64_RLock m hmu hin, callTrace64_Lock m hmu hin, callTrace64_RLock m hmu hin,
      callTrace64_TryLock m hmu hin, callTrace64_TryRLock m hmu hin]
    refine ⟨fun hlt => ?_, ?_, ?_, fun _ => ?_⟩
    · have hw1 : wrap64 (m.w + 1) = m.w + 1 :=
        wrap64_of_range _ (by have := hin.1; omega) (by omega)
      rw [hw1]
      have hiff : (m.r > 0 ∨ m.w + 1 > 1) ↔ (m.r > 0 ∨ m.w > 0) := by
        constructor <;> rintro (h | h)
        · exact Or.inl h
        · exact Or.inr (by omega)
        · exact Or.inl h
        · exact Or.inr (by omega)
      refine ⟨?_, ?_, fun _ => ?_⟩
      · by_cases h1 : m.r > 0 ∨ m.w > 0
        · rw [if_pos h1, if_pos (hiff.mpr h1)]
          by_cases h2 : m.rwmu.writer = false ∧ m.rwmu.readers = 0
          · rw [if_pos h2]; simp [Outcome.result]
          · rw [if_neg h2]; simp [Outcome.result]
        · rw [if_neg h1, if_neg (fun h => h1 (hiff.mp h))]
          by_cases h2 : m.rwmu.writer = false ∧ m.rwmu.readers = 0
          · rw [if_pos h2, if_pos h2]; simp [Outcome.result]
          · rw [if_neg h2, if_neg h2]; simp [Outcome.result]
      · intro m1 h hr
        by_cases h1 : m.r > 0 ∨ m.w > 0
        · rw [if_pos h1] at hr; cases hr
        · rw [if_neg h1] at hr
          rw [if_neg (fun h => h1 (hiff.mp h))]
          by_cases h2 : m.rwmu.writer = false ∧ m.rwmu.readers = 0
          · rw [if_pos h2] at hr
            rw [if_pos h2]
            cases hr; rfl
          · rw [if_neg h2] at hr; cases hr
      · by_cases h1 : m.r > 0 ∨ m.w > 0
        · rw [if_pos h1, if_pos (hiff.mpr h1)]
          by_cases h2 : m.rwmu.writer = false ∧ m.rwmu.readers = 0
          · rw [if_pos h2]; simp
          · rw [if_neg h2]; simp
        · rw [if_neg h1, if_neg (fun h => h1 (hiff.mp h))]
          by_cases h2 : m.rwmu.writer = false ∧ m.rwmu.readers = 0
          · rw [if_pos h2, if_pos h2]; simp
          · rw [if_neg h2, if_neg h2]; simp
    · by_cases h1 : m.w > 0
      · rw [if_pos h1, if_pos h1]
        by_cases h2 : m.rwmu.writer = false
        · rw [if_pos h2]; simp [Outcome.result]
        · rw [if_neg h2]; simp [Outcome.result]
      · rw [if_neg h1, if_neg h1]
        by_cases h2 : m.rwmu.writer = false
        · rw [if_pos h2, if_pos h2]; simp [Outcome.result]
        · rw [if_neg h2, if_neg h2]; simp [Outcome.result]
    · intro m1 h hr
      by_cases h1 : m.w > 0
      · rw [if_pos h1] at hr; cases hr
      · rw [if_neg h1] at hr
        rw [if_neg h1]
        by_cases h2 : m.rwmu.writer = false
        · rw [if_pos h2] at hr
          rw [if_pos h2]
          cases hr; rfl
        · rw [if_neg h2] at hr; cases hr
    · by_cases h1 : m.w > 0
      · rw [if_pos h1, if_pos h1]
        by_cases h2 : m.rwmu.writer = false
        · rw [if_pos h2]; simp
        · rw [if_neg h2]; simp
      · rw [if_neg h1, if_neg h1]
        by_cases h2 : m.rwmu.writer = false
        · rw [if_pos h2, if_pos h2]; simp
        · rw [if_neg h2, if_neg h2]; simp

theorem try_agrees_below_max_witness :
    TRWMutex.zero.inRange ∧ TRWMutex.zero.w < maxInt ∧
    ((call64 .TryLock TRWMutex.zero).result = some true ↔
      Loc.l23 ∈ callTrace64 .Lock TRWMutex.zero) ∧
    ((call64 .TryRLock TRWMutex.written).result = some true ↔
      Loc.l61 ∈ callTrace64 .RLock TRWMutex.written) :=
  ⟨by unfold TRWMutex.inRange; decide, by decide,
    ((try_agrees_below_max TRWMutex.zero (by unfold TRWMutex.inRange; decide)).1
      (by decide)).1,
    (try_agrees_below_max TRWMutex.written (by unfold TRWMutex.inRange; decide)).2.1⟩
/-! ## The interleaving semantics does not leave the range of an int -/

theorem step_length (s s1 : Sys) (a : Act) (h : step s a = some s1) :
    s1.thr.length = s.thr.length := by
  cases a with
  | call t o =>
    simp only [step] at h
    split at h
    · split at h
      · cases h; simp
      · cases h
    · cases h
  | run t =>
    simp only [step] at h
    split at h
    · split at h
      · cases h; simp
      · cases h; simp
      · cases h
      · cases h
    · cases h

theorem execs_length (as : List Act) (s s1 : Sys) (h : execs s as = some s1) :
    s1.thr.length = s.thr.length := by
  induction as generalizing s with
  | nil => simp only [execs] at h; cases h; rfl
  | cons a as ih =>
    simp only [execs] at h
    cases hs : step s a with
    | none => rw [hs] at h; cases h
    | some s2 =>
      rw [hs] at h
      rw [ih s2 h, step_length s s2 a hs]

theorem cnt_le_length (p : Thr → Bool) (thr : List Thr) : cnt p thr ≤ thr.length := by
  unfold cnt
  exact_mod_cast List.countP_le_length p

/-- In the interleaving semantics each counter stays between 0 and the number
of threads: with at most `2^63 - 1` threads no `++` or `--` wraps around. -/
theorem reach_inRange (n : Nat) (s : Sys) (h : Reach n s) (hn : (n : Int) ≤ maxInt) :
    s.m.inRange := by
  have inv := inv_reach n s h
  obtain ⟨as, has⟩ := h
  have hlen := execs_length as _ s has
  simp only [Sys.init, List.length_replicate] at hlen
  have h1 := cnt_le_length Thr.inW s.thr
  have h2 := cnt_le_length Thr.inR s.thr
  have h3 := cnt_nonneg Thr.inW s.thr
  have h4 := cnt_nonneg Thr.inR s.thr
  have hw := inv.hw
  have hr := inv.hr
  rw [hlen] at h1 h2
  unfold maxInt at hn
  unfold TRWMutex.inRange minInt maxInt
  omega

theorem wrap_of_inRange (m : TRWMutex) (h : m.inRange) : m.wrap = m := by
  obtain ⟨mu, rw, w, r⟩ := m
  obtain ⟨h1, h2, h3, h4⟩ := h
  simp only at h1 h2 h3 h4
  simp only [TRWMutex.wrap, wrap64_of_range w h1 h2, wrap64_of_range r h3 h4]

theorem execs_snoc (as : List Act) (s : Sys) (a : Act) :
    execs s (as ++ [a]) = (execs s as).bind fun s1 => step s1 a := by
  induction as generalizing s with
  | nil =>
    simp only [List.nil_append, execs, Option.some_bind]
    cases step s a <;> rfl
  | cons b as ih =>
    simp only [List.cons_append, execs]
    cases step s b with
    | none => rfl
    | some s2 => exact ih s2

theorem reach_step (n : Nat) (s s1 : Sys) (a : Act) (h : Reach n s) (hs : step s a = some s1) :
    Reach n s1 := by
  obtain ⟨as, has⟩ := h
  exact ⟨as ++ [a], by rw [execs_snoc, has]; exact hs⟩

theorem step64_eq (n : Nat) (s : Sys) (a : Act) (h : Reach n s) (hn : (n : Int) ≤ maxInt) :
    step64 s a = step s a := by
  cases a with
  | call t o => rfl
  | run t =>
    cases ht : s.thr[t]? with
    | none => simp only [step64, step, ht]
    | some b =>
      cases b with
      | outside hd => simp only [step64, step, ht]
      | inside l =>
        have hs : step s (.run t) = step s (.run t) := rfl
        simp only [step64, step, ht, exec64]
        cases he : exec l s.m with
        | goto m1 l1 =>
          have hr : Reach n ⟨m1, s.thr.set t (.inside l1)⟩ :=
            reach_step n s _ (.run t) h (by simp only [step, ht, he])
          have := wrap_of_inRange m1 (reach_inRange n _ hr hn)
          simp only [Res.wrap, this]
        | ret m1 v hd =>
          have hr : Reach n ⟨m1, s.thr.set t (.outside hd)⟩ :=
            reach_step n s _ (.run t) h (by simp only [step, ht, he])
          have := wrap_of_inRange m1 (reach_inRange n _ hr hn)
          simp only [Res.wrap, this]
        | wait => rfl
        | fatal => rfl

theorem execs64_eq (n : Nat) (hn : (n : Int) ≤ maxInt) (as : List Act) (s : Sys)
    (h : Reach n s) : execs64 s as = execs s as := by
  induction as generalizing s with
  | nil => rfl
  | cons a as ih =>
    simp only [execs64, execs, step64_eq n s a h hn]
    cases hs : step s a with
    | none => rfl
    | some s1 => exact ih s1 (reach_step n s s1 a h hs)

/-- With at most `2^63 - 1` threads, the interleaving semantics on the integers
and the one with Go's 64-bit arithmetic have the same executions, hence the
same reachable states. -/
theorem reach64_iff (n : Nat) (hn : (n : Int) ≤ maxInt) (s : Sys) :
    Reach64 n s ↔ Reach n s := by
  constructor
  · rintro ⟨as, h⟩
    exact ⟨as, by rw [← execs64_eq n hn as _ ⟨[], rfl⟩]; exact h⟩
  · rintro ⟨as, h⟩
    exact ⟨as, by rw [execs64_eq n hn as _ ⟨[], rfl⟩]; exact h⟩
/-! ## No run-time error under correct usage -/

theorem holder_writer (s : Sys) (inv : Inv s) (t : Nat) (a : Thr) (ht : s.thr[t]? = some a)
    (ha : a.holdsW = true) : s.m.rwmu.writer = true := by
  have h1 := cnt_pos Thr.holdsW s.thr t a ht ha
  have hwr := inv.hwr
  cases hc : s.m.rwmu.writer with
  | true => rfl
  | false => rw [hc] at hwr; simp at hwr; omega

theorem holder_reader (s : Sys) (inv : Inv s) (t : Nat) (a : Thr) (ht : s.thr[t]? = some a)
    (ha : a.holdsR = true) : 0 < s.m.rwmu.readers := by
  have h1 := cnt_pos Thr.holdsR s.thr t a ht ha
  have hrd := inv.hrd
  omega

theorem exec_fatal (l : Loc) (m : TRWMutex) (h : exec l m = .fatal) :
    (l.inMu = true ∧ m.mu.locked = false) ∨ (l.holdsW = true ∧ m.rwmu.writer = false) ∨
      (l.holdsR = true ∧ m.rwmu.readers = 0) := by
  obtain ⟨⟨mu⟩, ⟨wr, rd⟩, w, r⟩ := m
  revert h
  cases mu <;> cases wr <;> rcases rd with _ | rd <;> cases l <;>
    simp [exec, Acq.andThen, Mutex.Lock, Mutex.Unlock, RWMutex.Lock, RWMutex.Unlock,
      RWMutex.RLock, RWMutex.RUnlock, Loc.inMu, Loc.holdsW, Loc.holdsR]

/-- Under correct usage no statement is a run-time error of the underlying
locks: every release is the release of a lock the thread holds.  The outcome
`fatal` of the modelled locks is never taken in the interleaving semantics. -/
theorem reach_no_fatal (n : Nat) (s : Sys) (h : Reach n s) (t : Nat) (l : Loc)
    (ht : s.thr[t]? = some (.inside l)) : exec l s.m ≠ .fatal := by
  have inv := inv_reach n s h
  intro hf
  rcases exec_fatal l s.m hf with ⟨h1, h2⟩ | ⟨h1, h2⟩ | ⟨h1, h2⟩
  · have := guard_locked s inv t _ ht h1
    rw [h2] at this; cases this
  · have := holder_writer s inv t _ ht h1
    rw [h2] at this; cases this
  · have := holder_reader s inv t _ ht h1
    omega

end Trwmutex
